import Mathlib

/-!
# Verification of the posixperm permission codec

Shallow embedding of the `posixperm` Go package (src/main.go): a `Perm`
value is an unsigned 32-bit integer (modelled as `Nat`, kept below `2^32`),
parsed from any of six textual grammars and formatted back to the full
`fs.FileMode` string form.  Strings are modelled as `List Char`; the
anchored regular expressions of the source are translated into decidable
predicates; `strconv.ParseUint` is modelled including its 32-bit overflow
check; the state-threading of the pointer receiver in `UnmarshalText` is
made explicit (each decoder maps the prior receiver value and the input to
an error flag plus the new receiver value).
-/

namespace Posixperm

/-! ## Character classes used by the source regular expressions -/

/-- Characters matched by the regex class `[0-7]`. -/
def isOctDigit (c : Char) : Bool := '0' ≤ c && c ≤ '7'

/-- Characters matched by the regex class `[1-7]`. -/
def isOctDigitNZ (c : Char) : Bool := '1' ≤ c && c ≤ '7'

/-- Characters matched by the regex class `[ugo]`. -/
def isUgo (c : Char) : Bool := c == 'u' || c == 'g' || c == 'o'

/-- Characters matched by the regex class `[-=+]` (the symbolic operators). -/
def isOpChar (c : Char) : Bool := c == '-' || c == '=' || c == '+'

/-- Characters matched by the regex class `[rwx]`. -/
def isRwx (c : Char) : Bool := c == 'r' || c == 'w' || c == 'x'

/-- Characters matched by the RE2 whitespace class (backslash-s),
which is the set tab, newline, form feed, carriage return, space. -/
def isSpaceChar (c : Char) : Bool :=
  c == ' ' || c == '\t' || c == '\n' || c == '\x0c' || c == '\r'

/-- Characters matched by the regex class `[dalTLDpSugct?]`
(the `fs.FileMode` attribute abbreviations accepted by `fmtFull`). -/
def isAttrChar (c : Char) : Bool :=
  c == 'd' || c == 'a' || c == 'l' || c == 'T' || c == 'L' || c == 'D' ||
  c == 'p' || c == 'S' || c == 'u' || c == 'g' || c == 'c' || c == 't' || c == '?'

/-- First column of an `(r|-)` group. -/
def isCol1 (c : Char) : Bool := c == 'r' || c == '-'

/-- Second column, a `(w|-)` group. -/
def isCol2 (c : Char) : Bool := c == 'w' || c == '-'

/-- Third column, an `(x|-)` group. -/
def isCol3 (c : Char) : Bool := c == 'x' || c == '-'

/-! ## The six anchored classifier patterns (src/main.go lines 30-46) -/

/-- `fmtImplicitInt`: anchored regex, one `[1-7]` digit followed by two or
more `[0-7]` digits (a naked `644` style expression). -/
def fmtImplicitInt : List Char → Bool
  | [] => false
  | c :: rest => isOctDigitNZ c && decide (2 ≤ rest.length) && rest.all isOctDigit

/-- `fmtExplicitInt`: anchored regex, `0` then an optional `o`, then three
or more `[0-7]` digits (a `0644` or `0o644` style expression).  The `o` is
consumed exactly when present, since `o` is not an octal digit. -/
def fmtExplicitInt : List Char → Bool
  | [] => false
  | c :: rest =>
    c == '0' &&
      match rest with
      | 'o' :: rest2 => decide (3 ≤ rest2.length) && rest2.all isOctDigit
      | _ => decide (3 ≤ rest.length) && rest.all isOctDigit

/-- The nine fixed-column permission groups
`(r|-)(w|-)(x|-)(r|-)(w|-)(x|-)(r|-)(w|-)(x|-)` of the source regexes. -/
def matchTriple : List Char → Bool
  | [c0, c1, c2, c3, c4, c5, c6, c7, c8] =>
      isCol1 c0 && isCol2 c1 && isCol3 c2 &&
      isCol1 c3 && isCol2 c4 && isCol3 c5 &&
      isCol1 c6 && isCol2 c7 && isCol3 c8
  | _ => false

/-- `fmtBasicSingle`: anchored regex `(r|-)(w|-)(x|-)`. -/
def fmtBasicSingle : List Char → Bool
  | [c0, c1, c2] => isCol1 c0 && isCol2 c1 && isCol3 c2
  | _ => false

/-- `fmtBasicTriple`: anchored regex of the nine permission groups. -/
def fmtBasicTriple (s : List Char) : Bool := matchTriple s

/-- `fmtFull`: anchored regex `(-|[dalTLDpSugct?]*)` followed by the nine
permission groups.  Because the attribute class and the permission-column
characters are disjoint and the nine trailing groups each consume exactly
one character, a string matches exactly when its last nine characters form
a triple and the remaining leading characters are either the single
character `-` or all attribute characters. -/
def fmtFull (s : List Char) : Bool :=
  decide (9 ≤ s.length) &&
  matchTriple (s.drop (s.length - 9)) &&
  (s.take (s.length - 9) == ['-'] || (s.take (s.length - 9)).all isAttrChar)

/-! ## The symbolic grammar

`fmtSymbolicMatch` is the anchored regex: one or more groups, each an
actor (`a` or one to three `[ugo]` characters), an operator `[-=+]`, one
to three `[rwx]` permission characters, and an optional single whitespace
character.  `fmtSymbolicExtract` is the unanchored clause regex used by
`FindAllSubmatch` in `fromSymbolic`.  Both are driven by the same
deterministic clause scanner: the regex alternation `a` versus `[ugo]`
never backtracks usefully (no actor character is an operator character and
no permission character is an actor character), so greedy scanning is
faithful to the RE2 leftmost-match semantics. -/

/-- Take at most `n` leading characters satisfying `p`; returns the taken
run and the remainder. -/
def takeUpTo (p : Char → Bool) : Nat → List Char → List Char × List Char
  | 0, s => ([], s)
  | _ + 1, [] => ([], [])
  | n + 1, c :: rest =>
    if p c then
      let t := takeUpTo p n rest
      (c :: t.1, t.2)
    else ([], c :: rest)

/-- One symbolic clause: actor characters, operator, permission characters. -/
def Clause := List Char × Char × List Char

/-- Parse one clause `(a|[ugo]+)([-=+])([rwx]+)` (each repetition bounded by
three) at the head of the input; returns the clause and the rest. -/
def parseClause : List Char → Option (Clause × List Char)
  | [] => none
  | c :: rest =>
    let ar : List Char × List Char :=
      if c == 'a' then (['a'], rest) else takeUpTo isUgo 3 (c :: rest)
    if ar.1.isEmpty then none
    else
      match ar.2 with
      | [] => none
      | op :: r2 =>
        if isOpChar op then
          let pr := takeUpTo isRwx 3 r2
          if pr.1.isEmpty then none else some ((ar.1, op, pr.1), pr.2)
        else none

/-- The anchored repetition: clauses, each optionally followed by a single
whitespace character, covering the whole input (at least one clause).
Fuel-driven recursion; a clause consumes at least three characters, so
`length + 1` fuel always suffices. -/
def symClausesAux : Nat → List Char → Option (List Clause)
  | 0, _ => none
  | fuel + 1, s =>
    match parseClause s with
    | none => none
    | some (cl, rest) =>
      match rest with
      | [] => some [cl]
      | c :: rest2 =>
        if isSpaceChar c then
          match rest2 with
          | [] => some [cl]
          | _ :: _ => (symClausesAux fuel rest2).map (cl :: ·)
        else (symClausesAux fuel (c :: rest2)).map (cl :: ·)

/-- `fmtSymbolicMatch`: the input is a whole-string match of the clause
repetition. -/
def fmtSymbolicMatch (s : List Char) : Bool :=
  (symClausesAux (s.length + 1) s).isSome

/-- `fmtSymbolicExtract.FindAllSubmatch`: scan left to right, taking each
leftmost clause match and continuing after it, otherwise advancing one
character. -/
def extractClauses : Nat → List Char → List Clause
  | 0, _ => []
  | _ + 1, [] => []
  | fuel + 1, c :: rest =>
    match parseClause (c :: rest) with
    | some (cl, rest2) => cl :: extractClauses fuel rest2
    | none => extractClauses fuel rest

/-! ## fs.FileMode bit constants (fixed values from the Go standard library) -/

def modeDir : Nat := 2 ^ 31
def modeAppend : Nat := 2 ^ 30
def modeExclusive : Nat := 2 ^ 29
def modeTemporary : Nat := 2 ^ 28
def modeSymlink : Nat := 2 ^ 27
def modeDevice : Nat := 2 ^ 26
def modeNamedPipe : Nat := 2 ^ 25
def modeSocket : Nat := 2 ^ 24
def modeSetuid : Nat := 2 ^ 23
def modeSetgid : Nat := 2 ^ 22
def modeCharDevice : Nat := 2 ^ 21
def modeSticky : Nat := 2 ^ 20
def modeIrregular : Nat := 2 ^ 19

/-- The largest unsigned 32-bit value. -/
def u32max : Nat := 4294967295

/-- Bitwise complement within 32 bits (the Go unary caret on a uint32). -/
def compl32 (x : Nat) : Nat := u32max ^^^ x

/-! ## strconv.ParseUint (Go standard library, as used by the decoders) -/

/-- Digit value of a character, as in strconv (`0`-`9`, letters for larger
bases). -/
def digitVal (c : Char) : Option Nat :=
  if '0' ≤ c && c ≤ '9' then some (c.toNat - '0'.toNat)
  else if 'a' ≤ c && c ≤ 'z' then some (c.toNat - 'a'.toNat + 10)
  else if 'A' ≤ c && c ≤ 'Z' then some (c.toNat - 'A'.toNat + 10)
  else none

/-- The digit-accumulation loop of `strconv.ParseUint`: multiply by the
base and add each digit; fail on any character that is not a digit below
the base.  (Go checks overflow against a cutoff inside the loop; the
final error/value outcome is the same as checking the accumulated value at
the end, which is how `parseUintBits32` models it.) -/
def digitsValAux (base acc : Nat) : List Char → Option Nat
  | [] => some acc
  | c :: rest =>
    match digitVal c with
    | some d => if d < base then digitsValAux base (acc * base + d) rest else none
    | none => none

def digitsVal (base : Nat) (s : List Char) : Option Nat := digitsValAux base 0 s

/-- `strconv.ParseUint(s, base, 32)` for a fixed base: at least one digit,
all digits valid for the base, and the value within 32 bits. -/
def parseUintBits32 (base : Nat) (s : List Char) : Option Nat :=
  if s.isEmpty then none
  else
    match digitsVal base s with
    | some v => if v ≤ u32max then some v else none
    | none => none

/-- `strconv.ParseUint(s, 0, 32)`: the base is detected from the prefix as
in Go (`0x`/`0X` hex, `0o`/`0O` octal, `0b`/`0B` binary, a leading `0`
octal, otherwise decimal).  Go additionally accepts underscore separators
when the base is 0; no input reaching this function through the
`fmtExplicitInt` gate can contain one, so they are not modelled. -/
def parseUintBase0Bits32 (s : List Char) : Option Nat :=
  match s with
  | '0' :: c :: rest =>
    if c == 'x' || c == 'X' then parseUintBits32 16 rest
    else if c == 'o' || c == 'O' then parseUintBits32 8 rest
    else if c == 'b' || c == 'B' then parseUintBits32 2 rest
    else parseUintBits32 8 (c :: rest)
  | ['0'] => some 0
  | _ => parseUintBits32 10 s

/-! ## The six decoders (src/main.go lines 55-229)

Each decoder is modelled as a map from the input and the prior receiver
value to a pair of an error-free flag and the new receiver value, making
the pointer receiver of the Go methods explicit.  A decoder that returns
an error in Go performs no assignment to the receiver first, so the prior
value is returned unchanged in that case.  The fixed-index buffer accesses
of `fromBasicSingle`, `fromBasicTriple` and `fromFull` are modelled with
optional indexing, an out-of-bounds access (a Go panic) surfacing as the
`none` branch. -/

/-- `fromImplicit`: `strconv.ParseUint(string(b), 8, 32)`. -/
def fromImplicitSt (b : List Char) (p : Nat) : Bool × Nat :=
  match parseUintBits32 8 b with
  | some v => (true, v)
  | none => (false, p)

/-- `fromExplicit`: `strconv.ParseUint(string(b), 0, 32)`. -/
def fromExplicitSt (b : List Char) (p : Nat) : Bool × Nat :=
  match parseUintBase0Bits32 b with
  | some v => (true, v)
  | none => (false, p)

/-- The actor accumulation loop of `fromSymbolic`: `a` assigns all nine
bits, `u`, `g`, `o` each OR in their own three-bit group. -/
def actorMaskStep (acc : Nat) (c : Char) : Nat :=
  if c == 'a' then 0o777
  else if c == 'u' then acc ||| 0o700
  else if c == 'g' then acc ||| 0o070
  else if c == 'o' then acc ||| 0o007
  else acc

def actorMask (cs : List Char) : Nat := cs.foldl actorMaskStep 0

/-- The permission accumulation loop of `fromSymbolic`: `r`, `w`, `x` each
OR in their column replicated across the three actors. -/
def permMaskStep (acc : Nat) (c : Char) : Nat :=
  if c == 'r' then acc ||| 0o444
  else if c == 'w' then acc ||| 0o222
  else if c == 'x' then acc ||| 0o111
  else acc

def permMask (cs : List Char) : Nat := cs.foldl permMaskStep 0

/-- The operator switch of `fromSymbolic` applied to one clause. -/
def applyClause (perm : Nat) (cl : Clause) : Nat :=
  let a := actorMask cl.1
  let m := permMask cl.2.2
  match cl.2.1 with
  | '+' => perm ||| (a &&& m)
  | '-' => perm &&& compl32 (a &&& m)
  | '=' => (perm &&& compl32 a) ||| (a &&& m)
  | _ => perm

/-- `fromSymbolic`: fold the operator switch over the extracted clauses,
starting from zero. -/
def fromSymbolic (s : List Char) : Nat :=
  (extractClauses s.length s).foldl applyClause 0

/-- `fromSymbolic` as a receiver transformer: it always assigns and never
returns an error. -/
def fromSymbolicSt (s : List Char) (_p : Nat) : Bool × Nat :=
  (true, fromSymbolic s)

/-- One step `if cond then perm = perm OR k` of the decoders. -/
def orIf (cond : Bool) (k x : Nat) : Nat := if cond then x ||| k else x

/-- `fromBasicSingle`: direct indexed reads of `b[0]`, `b[1]`, `b[2]`,
each ORing its replicated column bits in sequence. -/
def fromBasicSingle (b : List Char) : Option Nat :=
  match b[0]?, b[1]?, b[2]? with
  | some c0, some c1, some c2 =>
    some (orIf (c2 == 'x') 0o111 (orIf (c1 == 'w') 0o222 (orIf (c0 == 'r') 0o444 0)))
  | _, _, _ => none

def fromBasicSingleSt (b : List Char) (p : Nat) : Bool × Nat :=
  match fromBasicSingle b with
  | some v => (true, v)
  | none => (false, p)

/-- The nine sequential conditional OR steps shared in shape by
`fromBasicTriple` and the trailing part of `fromFull`: bits `0o400` down
to `0o001` in owner/group/other, read/write/execute order, applied to a
starting value. -/
def tripleOr (c0 c1 c2 c3 c4 c5 c6 c7 c8 : Char) (x : Nat) : Nat :=
  orIf (c8 == 'x') 0o001 (orIf (c7 == 'w') 0o002 (orIf (c6 == 'r') 0o004
    (orIf (c5 == 'x') 0o010 (orIf (c4 == 'w') 0o020 (orIf (c3 == 'r') 0o040
      (orIf (c2 == 'x') 0o100 (orIf (c1 == 'w') 0o200 (orIf (c0 == 'r') 0o400 x))))))))

/-- `fromBasicTriple`: direct indexed reads of `b[0]` through `b[8]`, each
ORing its own bit in sequence. -/
def fromBasicTriple (b : List Char) : Option Nat :=
  match b[0]?, b[1]?, b[2]?, b[3]?, b[4]?, b[5]?, b[6]?, b[7]?, b[8]? with
  | some c0, some c1, some c2, some c3, some c4, some c5, some c6, some c7, some c8 =>
    some (tripleOr c0 c1 c2 c3 c4 c5 c6 c7 c8 0)
  | _, _, _, _, _, _, _, _, _ => none

def fromBasicTripleSt (b : List Char) (p : Nat) : Bool × Nat :=
  match fromBasicTriple b with
  | some v => (true, v)
  | none => (false, p)

/-- The attribute switch of `fromFull`: each recognized abbreviation ORs in
its `fs.FileMode` bit; `-` and anything else contribute nothing. -/
def attrStep (perm : Nat) (c : Char) : Nat :=
  if c == 'd' then perm ||| modeDir
  else if c == 'a' then perm ||| modeAppend
  else if c == 'l' then perm ||| modeExclusive
  else if c == 'T' then perm ||| modeTemporary
  else if c == 'L' then perm ||| modeSymlink
  else if c == 'D' then perm ||| modeDevice
  else if c == 'p' then perm ||| modeNamedPipe
  else if c == 'S' then perm ||| modeSocket
  else if c == 'u' then perm ||| modeSetuid
  else if c == 'g' then perm ||| modeSetgid
  else if c == 'c' then perm ||| modeCharDevice
  else if c == 't' then perm ||| modeSticky
  else if c == '?' then perm ||| modeIrregular
  else perm

/-- `fmtFull.FindSubmatch` re-run by `fromFull`: the attribute group and
the nine single-character permission groups (returned as one list).  `none`
models a failed match, in which case the Go code would dereference a nil
slice and panic. -/
def fullSubmatch (s : List Char) : Option (List Char × List Char) :=
  if fmtFull s then some (s.take (s.length - 9), s.drop (s.length - 9)) else none

/-- `fromFull`: fold the attribute switch over the first group, then OR in
the nine permission bits from the single-character groups. -/
def fromFull (s : List Char) : Option Nat :=
  match fullSubmatch s with
  | none => none
  | some m =>
    match m.2[0]?, m.2[1]?, m.2[2]?, m.2[3]?, m.2[4]?, m.2[5]?, m.2[6]?, m.2[7]?, m.2[8]? with
    | some c0, some c1, some c2, some c3, some c4, some c5, some c6, some c7, some c8 =>
      some (tripleOr c0 c1 c2 c3 c4 c5 c6 c7 c8 (m.1.foldl attrStep 0))
    | _, _, _, _, _, _, _, _, _ => none

def fromFullSt (s : List Char) (p : Nat) : Bool × Nat :=
  match fromFull s with
  | some v => (true, v)
  | none => (false, p)

/-! ## UnmarshalText, FromString (src/main.go lines 234-270) -/

/-- `UnmarshalText`: the ordered classifier dispatch of the source, made
explicit over the receiver value.  The boolean is `true` exactly when no
error is returned. -/
def UnmarshalTextSt (b : List Char) (p : Nat) : Bool × Nat :=
  if fmtImplicitInt b then fromImplicitSt b p
  else if fmtExplicitInt b then fromExplicitSt b p
  else if fmtBasicSingle b then fromBasicSingleSt b p
  else if fmtBasicTriple b then fromBasicTripleSt b p
  else if fmtSymbolicMatch b then fromSymbolicSt b p
  else if fmtFull b then fromFullSt b p
  else (false, p)

/-- `FromString`: unmarshal into a zero-valued receiver. -/
def FromString (s : String) : Bool × Nat := UnmarshalTextSt s.toList 0

/-! ## The canonical formatter

`MarshalText` and `String` delegate to `fs.FileMode.String()` of the Go
standard library, which is outside this repository. -/

/-- Modelled from the spec: the canonical encoder (spec section 4.3,
realized by the external `fs.FileMode.String()`): for each special/type
bit position in the fixed order `dalTLDpSugct?`, emit its abbreviation
character if the bit is set. -/
def modeStrTable : List (Char × Nat) :=
  [('d', modeDir), ('a', modeAppend), ('l', modeExclusive),
   ('T', modeTemporary), ('L', modeSymlink), ('D', modeDevice),
   ('p', modeNamedPipe), ('S', modeSocket), ('u', modeSetuid),
   ('g', modeSetgid), ('c', modeCharDevice), ('t', modeSticky),
   ('?', modeIrregular)]

/-- Modelled from the spec: the attribute prefix characters of the
canonical encoding of `v`. -/
def modeAttrChars (v : Nat) : List Char :=
  modeStrTable.foldr (fun e acc => if v &&& e.2 != 0 then e.1 :: acc else acc) []

/-- Modelled from the spec: the nine permission characters of the
canonical encoding of `v`, owner/group/other, read/write/execute order. -/
def modeTripleChars (v : Nat) : List Char :=
  [if v &&& 0o400 != 0 then 'r' else '-',
   if v &&& 0o200 != 0 then 'w' else '-',
   if v &&& 0o100 != 0 then 'x' else '-',
   if v &&& 0o040 != 0 then 'r' else '-',
   if v &&& 0o020 != 0 then 'w' else '-',
   if v &&& 0o010 != 0 then 'x' else '-',
   if v &&& 0o004 != 0 then 'r' else '-',
   if v &&& 0o002 != 0 then 'w' else '-',
   if v &&& 0o001 != 0 then 'x' else '-']

/-- Modelled from the spec: `fs.FileMode.String()` — the attribute
characters (or a single `-` placeholder when none), followed by the nine
permission characters. This is the output of `MarshalText` and `String`
(src/main.go lines 261-275). -/
def modeString (v : Nat) : List Char :=
  (if (modeAttrChars v).isEmpty then ['-'] else modeAttrChars v) ++ modeTripleChars v

/-- The 22 bit positions of the data model: the nine permission bits plus
the thirteen enumerated mode/type/special bits. -/
def allowedMask : Nat :=
  0o777 ||| (modeDir ||| modeAppend ||| modeExclusive ||| modeTemporary |||
    modeSymlink ||| modeDevice ||| modeNamedPipe ||| modeSocket |||
    modeSetuid ||| modeSetgid ||| modeCharDevice ||| modeSticky ||| modeIrregular)

/-- `MarshalText`: always the canonical full-form string. -/
def MarshalText (p : Nat) : List Char := modeString p

/-- `String()`: identical to `MarshalText`. -/
def PermString (p : Nat) : List Char := modeString p

/-- The classifier dispatch in the priority order stated by the spec
(section 4.1): implicit octal, explicit octal, symbolic, basic single,
basic triple, full.  The source checks basic single and basic triple
before symbolic; this definition follows the spec wording, to be compared
with `UnmarshalTextSt`. -/
def UnmarshalTextSpecOrder (b : List Char) (p : Nat) : Bool × Nat :=
  if fmtImplicitInt b then fromImplicitSt b p
  else if fmtExplicitInt b then fromExplicitSt b p
  else if fmtSymbolicMatch b then fromSymbolicSt b p
  else if fmtBasicSingle b then fromBasicSingleSt b p
  else if fmtBasicTriple b then fromBasicTripleSt b p
  else if fmtFull b then fromFullSt b p
  else (false, p)

/-- The characters that can occur in a string matched by the symbolic
grammar (actor letters, operators, permission letters, whitespace). -/
def isSymChar (c : Char) : Bool :=
  c == 'a' || isUgo c || isOpChar c || isRwx c || isSpaceChar c

/-- The character of one octal digit (base-8 rendering, as produced by a
`%o` format of a value below `0o1000`). -/
def octDigitChar : Nat → Char
  | 0 => '0' | 1 => '1' | 2 => '2' | 3 => '3'
  | 4 => '4' | 5 => '5' | 6 => '6' | _ => '7'

/-- The three-octal-digit rendering of a value below `0o1000` (the
implicit-octal string for values with a leading nonzero digit, and the
zero-padded digit part of the explicit forms). -/
def octal3 (v : Nat) : List Char :=
  [octDigitChar (v / 64), octDigitChar (v / 8 % 8), octDigitChar (v % 8)]

/-! ## The six grammars as an index (spec section 4.1/4.2): a grammar
matches a string when its classifier pattern does, and accepts it when in
addition its decoder defines a bit pattern for it (for the octal grammars
this also requires the value to fit in 32 bits) -/

inductive Grammar where
  | implicit
  | explicit
  | symbolic
  | basicSingle
  | basicTriple
  | fullForm

/-- The classifier pattern of each grammar. -/
def matchesGrammar : Grammar → List Char → Bool
  | .implicit, b => fmtImplicitInt b
  | .explicit, b => fmtExplicitInt b
  | .symbolic, b => fmtSymbolicMatch b
  | .basicSingle, b => fmtBasicSingle b
  | .basicTriple, b => fmtBasicTriple b
  | .fullForm, b => fmtFull b

/-- The bit pattern defined by each grammar for a string, when any. -/
def grammarResult : Grammar → List Char → Option Nat
  | .implicit, b => if fmtImplicitInt b then parseUintBits32 8 b else none
  | .explicit, b => if fmtExplicitInt b then parseUintBase0Bits32 b else none
  | .symbolic, b => if fmtSymbolicMatch b then some (fromSymbolic b) else none
  | .basicSingle, b => if fmtBasicSingle b then fromBasicSingle b else none
  | .basicTriple, b => if fmtBasicTriple b then fromBasicTriple b else none
  | .fullForm, b => if fmtFull b then fromFull b else none

/-- A grammar accepts a string when it defines a bit pattern for it. -/
def acceptsGrammar (g : Grammar) (b : List Char) : Bool :=
  (grammarResult g b).isSome

/-! ## Helper lemmas: bit algebra -/

theorem lor_mask_mask {x k M : Nat} (hx : x ||| M = M) (hk : k ||| M = M) :
    (x ||| k) ||| M = M := by
  rw [Nat.lor_assoc, hk, hx]

theorem land_eq_self_of_lor {v M : Nat} (h : v ||| M = M) : v &&& M = v := by
  refine Nat.eq_of_testBit_eq fun i => ?_
  have h2 := congrArg (fun t => Nat.testBit t i) h
  simp only [Nat.testBit_lor] at h2
  simp only [Nat.testBit_land]
  cases hv : Nat.testBit v i <;> cases hM : Nat.testBit M i <;> simp_all

theorem or_lt_512 {x y : Nat} (hx : x < 512) (hy : y < 512) : x ||| y < 512 := by
  have h1 : x < 2 ^ 9 := hx
  have h2 : y < 2 ^ 9 := hy
  have h3 : x ||| y < 2 ^ 9 := Nat.or_lt_two_pow h1 h2
  exact h3

theorem land_511_eq_self {v : Nat} (h : v < 512) : v &&& 511 = v := by
  have h9 : v < 2 ^ 9 := h
  have h511 : (511 : Nat) = 2 ^ 9 - 1 := by norm_num
  rw [h511, Nat.and_pow_two_sub_one_eq_mod, Nat.mod_eq_of_lt h9]

theorem land_mask_of_lt {v : Nat} (h : v < 512) : v &&& allowedMask = v := by
  have h1 : v &&& 511 = v := land_511_eq_self h
  have h2 : (511 : Nat) &&& allowedMask = 511 := by decide
  calc v &&& allowedMask = (v &&& 511) &&& allowedMask := by rw [h1]
    _ = v &&& (511 &&& allowedMask) := Nat.land_assoc ..
    _ = v &&& 511 := by rw [h2]
    _ = v := h1

theorem land_compl777_of_lt {v : Nat} (h : v < 512) : v &&& compl32 0o777 = 0 := by
  have h1 : v &&& 511 = v := land_511_eq_self h
  have h2 : (511 : Nat) &&& compl32 0o777 = 0 := by decide
  calc v &&& compl32 0o777 = (v &&& 511) &&& compl32 0o777 := by rw [h1]
    _ = v &&& (511 &&& compl32 0o777) := Nat.land_assoc ..
    _ = v &&& 0 := by rw [h2]
    _ = 0 := by simp

theorem orIf_lt {x k : Nat} (c : Bool) (hx : x < 512) (hk : k < 512) :
    orIf c k x < 512 := by
  unfold orIf
  split
  · exact or_lt_512 hx hk
  · exact hx

theorem orIf_mask {x k M : Nat} (c : Bool) (hx : x ||| M = M) (hk : k ||| M = M) :
    orIf c k x ||| M = M := by
  unfold orIf
  split
  · exact lor_mask_mask hx hk
  · exact hx

/-! ## Helper lemmas: bounds on decoder results -/

theorem actorMask_lt (cs : List Char) : actorMask cs < 512 := by
  suffices H : ∀ (l : List Char) (x : Nat), x < 512 →
      List.foldl actorMaskStep x l < 512 from H cs 0 (by norm_num)
  intro l
  induction l with
  | nil => exact fun x hx => hx
  | cons c rest ih =>
    intro x hx
    refine ih _ ?_
    unfold actorMaskStep
    split
    · norm_num
    split
    · exact or_lt_512 hx (by norm_num)
    split
    · exact or_lt_512 hx (by norm_num)
    split
    · exact or_lt_512 hx (by norm_num)
    exact hx

theorem permMask_lt (cs : List Char) : permMask cs < 512 := by
  suffices H : ∀ (l : List Char) (x : Nat), x < 512 →
      List.foldl permMaskStep x l < 512 from H cs 0 (by norm_num)
  intro l
  induction l with
  | nil => exact fun x hx => hx
  | cons c rest ih =>
    intro x hx
    refine ih _ ?_
    unfold permMaskStep
    split
    · exact or_lt_512 hx (by norm_num)
    split
    · exact or_lt_512 hx (by norm_num)
    split
    · exact or_lt_512 hx (by norm_num)
    exact hx

theorem applyClause_lt (x : Nat) (cl : Clause) (hx : x < 512) :
    applyClause x cl < 512 := by
  have ha : actorMask cl.1 < 512 := actorMask_lt _
  have ham : actorMask cl.1 &&& permMask cl.2.2 < 512 :=
    Nat.lt_of_le_of_lt Nat.and_le_left ha
  unfold applyClause
  split
  · exact or_lt_512 hx ham
  · exact Nat.lt_of_le_of_lt Nat.and_le_left hx
  · exact or_lt_512 (Nat.lt_of_le_of_lt Nat.and_le_left hx) ham
  · exact hx

theorem fromSymbolic_lt (s : List Char) : fromSymbolic s < 512 := by
  suffices H : ∀ (cls : List Clause) (x : Nat), x < 512 →
      List.foldl applyClause x cls < 512 from H _ 0 (by norm_num)
  intro cls
  induction cls with
  | nil => exact fun x hx => hx
  | cons cl rest ih => exact fun x hx => ih _ (applyClause_lt x cl hx)

theorem tripleOr_lt (c0 c1 c2 c3 c4 c5 c6 c7 c8 : Char) {x : Nat} (hx : x < 512) :
    tripleOr c0 c1 c2 c3 c4 c5 c6 c7 c8 x < 512 := by
  unfold tripleOr
  refine orIf_lt _ (orIf_lt _ (orIf_lt _ (orIf_lt _ (orIf_lt _ (orIf_lt _
    (orIf_lt _ (orIf_lt _ (orIf_lt _ hx ?_) ?_) ?_) ?_) ?_) ?_) ?_) ?_) ?_ <;> norm_num

theorem tripleOr_mask (c0 c1 c2 c3 c4 c5 c6 c7 c8 : Char) {x : Nat}
    (hx : x ||| allowedMask = allowedMask) :
    tripleOr c0 c1 c2 c3 c4 c5 c6 c7 c8 x ||| allowedMask = allowedMask := by
  unfold tripleOr
  refine orIf_mask _ (orIf_mask _ (orIf_mask _ (orIf_mask _ (orIf_mask _ (orIf_mask _
    (orIf_mask _ (orIf_mask _ (orIf_mask _ hx ?_) ?_) ?_) ?_) ?_) ?_) ?_) ?_) ?_ <;> decide

theorem fromBasicSingle_lt {b : List Char} {v : Nat}
    (h : fromBasicSingle b = some v) : v < 512 := by
  unfold fromBasicSingle at h
  split at h
  · simp only [Option.some_inj] at h
    subst h
    refine orIf_lt _ (orIf_lt _ (orIf_lt _ ?_ ?_) ?_) ?_ <;> norm_num
  · exact absurd h (by simp)

theorem fromBasicTriple_lt {b : List Char} {v : Nat}
    (h : fromBasicTriple b = some v) : v < 512 := by
  unfold fromBasicTriple at h
  split at h
  · simp only [Option.some_inj] at h
    subst h
    exact tripleOr_lt _ _ _ _ _ _ _ _ _ (by norm_num)
  · exact absurd h (by simp)

theorem attrStep_mask {x : Nat} (c : Char) (hx : x ||| allowedMask = allowedMask) :
    attrStep x c ||| allowedMask = allowedMask := by
  unfold attrStep
  by_cases h1 : (c == 'd') = true
  · rw [if_pos h1]
    exact lor_mask_mask hx (by decide)
  rw [if_neg h1]
  by_cases h2 : (c == 'a') = true
  · rw [if_pos h2]
    exact lor_mask_mask hx (by decide)
  rw [if_neg h2]
  by_cases h3 : (c == 'l') = true
  · rw [if_pos h3]
    exact lor_mask_mask hx (by decide)
  rw [if_neg h3]
  by_cases h4 : (c == 'T') = true
  · rw [if_pos h4]
    exact lor_mask_mask hx (by decide)
  rw [if_neg h4]
  by_cases h5 : (c == 'L') = true
  · rw [if_pos h5]
    exact lor_mask_mask hx (by decide)
  rw [if_neg h5]
  by_cases h6 : (c == 'D') = true
  · rw [if_pos h6]
    exact lor_mask_mask hx (by decide)
  rw [if_neg h6]
  by_cases h7 : (c == 'p') = true
  · rw [if_pos h7]
    exact lor_mask_mask hx (by decide)
  rw [if_neg h7]
  by_cases h8 : (c == 'S') = true
  · rw [if_pos h8]
    exact lor_mask_mask hx (by decide)
  rw [if_neg h8]
  by_cases h9 : (c == 'u') = true
  · rw [if_pos h9]
    exact lor_mask_mask hx (by decide)
  rw [if_neg h9]
  by_cases h10 : (c == 'g') = true
  · rw [if_pos h10]
    exact lor_mask_mask hx (by decide)
  rw [if_neg h10]
  by_cases h11 : (c == 'c') = true
  · rw [if_pos h11]
    exact lor_mask_mask hx (by decide)
  rw [if_neg h11]
  by_cases h12 : (c == 't') = true
  · rw [if_pos h12]
    exact lor_mask_mask hx (by decide)
  rw [if_neg h12]
  by_cases h13 : (c == '?') = true
  · rw [if_pos h13]
    exact lor_mask_mask hx (by decide)
  rw [if_neg h13]
  exact hx

theorem attr_fold_mask (l : List Char) :
    ∀ x : Nat, x ||| allowedMask = allowedMask →
      List.foldl attrStep x l ||| allowedMask = allowedMask := by
  induction l with
  | nil => exact fun x hx => hx
  | cons c rest ih => exact fun x hx => ih _ (attrStep_mask c hx)

theorem fromFull_mask {s : List Char} {v : Nat}
    (h : fromFull s = some v) : v &&& allowedMask = v := by
  refine land_eq_self_of_lor ?_
  unfold fromFull at h
  split at h
  · exact absurd h (by simp)
  split at h
  · simp only [Option.some_inj] at h
    subst h
    exact tripleOr_mask _ _ _ _ _ _ _ _ _ (attr_fold_mask _ 0 (by decide))
  · exact absurd h (by simp)

/-! ## Helper lemmas: shapes forced by the classifiers -/

theorem fmtBasicSingle_shape {s : List Char} (h : fmtBasicSingle s = true) :
    ∃ c0 c1 c2, s = [c0, c1, c2] := by
  unfold fmtBasicSingle at h
  split at h
  · rename_i c0 c1 c2
    exact ⟨c0, c1, c2, rfl⟩
  · exact absurd h (by simp)

theorem matchTriple_shape {s : List Char} (h : matchTriple s = true) :
    ∃ c0 c1 c2 c3 c4 c5 c6 c7 c8, s = [c0, c1, c2, c3, c4, c5, c6, c7, c8] := by
  unfold matchTriple at h
  split at h
  · rename_i c0 c1 c2 c3 c4 c5 c6 c7 c8
    exact ⟨c0, c1, c2, c3, c4, c5, c6, c7, c8, rfl⟩
  · exact absurd h (by simp)

theorem list9_shape {t : List Char} (h : t.length = 9) :
    ∃ a0 a1 a2 a3 a4 a5 a6 a7 a8, t = [a0, a1, a2, a3, a4, a5, a6, a7, a8] := by
  rcases t with _ | ⟨a0, t⟩
  · simp at h
  rcases t with _ | ⟨a1, t⟩
  · simp at h
  rcases t with _ | ⟨a2, t⟩
  · simp at h
  rcases t with _ | ⟨a3, t⟩
  · simp at h
  rcases t with _ | ⟨a4, t⟩
  · simp at h
  rcases t with _ | ⟨a5, t⟩
  · simp at h
  rcases t with _ | ⟨a6, t⟩
  · simp at h
  rcases t with _ | ⟨a7, t⟩
  · simp at h
  rcases t with _ | ⟨a8, t⟩
  · simp at h
  have ht : t = [] := by
    have h0 : t.length = 0 := by
      simp only [List.length_cons] at h
      omega
    exact List.length_eq_zero.mp h0
  subst ht
  exact ⟨a0, a1, a2, a3, a4, a5, a6, a7, a8, rfl⟩

theorem fmtFull_len {s : List Char} (h : fmtFull s = true) : 9 ≤ s.length := by
  unfold fmtFull at h
  rw [Bool.and_eq_true, Bool.and_eq_true] at h
  exact of_decide_eq_true h.1.1

theorem fmtFull_triple {s : List Char} (h : fmtFull s = true) :
    matchTriple (s.drop (s.length - 9)) = true := by
  unfold fmtFull at h
  rw [Bool.and_eq_true, Bool.and_eq_true] at h
  exact h.1.2

theorem fmtFull_drop_len {s : List Char} (h : fmtFull s = true) :
    (s.drop (s.length - 9)).length = 9 := by
  rw [List.length_drop]
  exact Nat.sub_sub_self (fmtFull_len h)

/-! ## Theorems for the claims -/

/-- C1 counterexample: the implicit-octal string `1000` parses successfully
to the value `0o1000 = 512`, whose only set bit (bit 9) is outside the nine
permission bits and the thirteen enumerated mode/type/special bits. -/
theorem claim_C1_counterexample :
    FromString "1000" = (true, 512) ∧ ¬(512 &&& allowedMask = 512) := by
  constructor
  · decide
  · decide

/-- C1 (amended): for every parse that does not go through the implicit or
explicit octal grammar, the resulting value has bits set only within the
nine permission bits and the thirteen enumerated mode/type/special bit
positions.  (The octal grammars can produce any 32-bit value, e.g. `1000`.) -/
theorem claim_C1_amended (b : List Char) (p : Nat)
    (h1 : fmtImplicitInt b = false) (h2 : fmtExplicitInt b = false)
    (hok : (UnmarshalTextSt b p).1 = true) :
    (UnmarshalTextSt b p).2 &&& allowedMask = (UnmarshalTextSt b p).2 := by
  unfold UnmarshalTextSt at hok ⊢
  rw [h1, h2] at hok ⊢
  simp only [Bool.false_eq_true, if_false] at hok ⊢
  by_cases h3 : fmtBasicSingle b = true
  · rw [if_pos h3] at hok ⊢
    unfold fromBasicSingleSt at hok ⊢
    rcases hv : fromBasicSingle b with _ | v
    · try rw [hv] at hok
      exact absurd hok (by simp)
    · try rw [hv] at hok ⊢
      exact land_mask_of_lt (fromBasicSingle_lt hv)
  rw [if_neg h3] at hok ⊢
  by_cases h4 : fmtBasicTriple b = true
  · rw [if_pos h4] at hok ⊢
    unfold fromBasicTripleSt at hok ⊢
    rcases hv : fromBasicTriple b with _ | v
    · try rw [hv] at hok
      exact absurd hok (by simp)
    · try rw [hv] at hok ⊢
      exact land_mask_of_lt (fromBasicTriple_lt hv)
  rw [if_neg h4] at hok ⊢
  by_cases h5 : fmtSymbolicMatch b = true
  · rw [if_pos h5] at hok ⊢
    exact land_mask_of_lt (fromSymbolic_lt b)
  rw [if_neg h5] at hok ⊢
  by_cases h6 : fmtFull b = true
  · rw [if_pos h6] at hok ⊢
    unfold fromFullSt at hok ⊢
    rcases hv : fromFull b with _ | v
    · try rw [hv] at hok
      exact absurd hok (by simp)
    · try rw [hv] at hok ⊢
      exact fromFull_mask hv
  rw [if_neg h6] at hok ⊢
  exact absurd hok (by simp)

/-- C1 amended, witness: parsing `rwx` (a non-octal grammar) yields a value
within the enumerated bit positions. -/
theorem claim_C1_amended_witness :
    (UnmarshalTextSt "rwx".toList 0).2 &&& allowedMask = (UnmarshalTextSt "rwx".toList 0).2 :=
  claim_C1_amended "rwx".toList 0 (by decide) (by decide) (by decide)

/-- C2 counterexample: `rwxr-xr-x` has an empty type/mode-bit prefix and an
exact 9-character triple, so the claim calls it canonical full form; it
parses to `0o755`, but re-formatting yields `-rwxr-xr-x`, not the original
string. -/
theorem claim_C2_counterexample :
    FromString "rwxr-xr-x" = (true, 0o755) ∧
    ¬(MarshalText 0o755 = "rwxr-xr-x".toList) := by
  constructor
  · decide
  · decide

/-- C4: symbolic parsing folds the clauses left to right over an
accumulator starting at zero, with `+` ORing in the masked bits, `-`
clearing them, and `=` resetting the actor bits before ORing in; the six
spec examples evaluate accordingly through the full parse entry point. -/
theorem claim_C4_symbolic_semantics :
    (∀ (acc : Nat) (a m : List Char),
        applyClause acc (a, '+', m) = acc ||| (actorMask a &&& permMask m) ∧
        applyClause acc (a, '-', m) = acc &&& compl32 (actorMask a &&& permMask m) ∧
        applyClause acc (a, '=', m) =
          (acc &&& compl32 (actorMask a)) ||| (actorMask a &&& permMask m)) ∧
    (∀ s : List Char, fromSymbolic s = (extractClauses s.length s).foldl applyClause 0) ∧
    FromString "a=rwx" = (true, 0o777) ∧
    FromString "a=rwx o-w" = (true, 0o775) ∧
    FromString "u=x g=w o=r" = (true, 0o124) ∧
    FromString "u+w u+r u+w" = (true, 0o600) ∧
    FromString "u=ru+wu-r" = (true, 0o200) ∧
    FromString "a=rwx o-r a-w o-x o+r" = (true, 0o554) := by
  refine ⟨fun acc a m => ⟨rfl, rfl, rfl⟩, fun s => rfl, ?_, ?_, ?_, ?_, ?_, ?_⟩ <;> decide

/-- C5: whenever `UnmarshalText` reports an error, the receiver value is
left unchanged: no parse path partially assigns it before failing. -/
theorem claim_C5_failure_leaves_receiver (b : List Char) (p : Nat)
    (h : (UnmarshalTextSt b p).1 = false) : (UnmarshalTextSt b p).2 = p := by
  unfold UnmarshalTextSt at h ⊢
  by_cases h1 : fmtImplicitInt b = true
  · simp only [if_pos h1] at h ⊢
    unfold fromImplicitSt at h ⊢
    rcases hv : parseUintBits32 8 b with _ | v
    all_goals try rw [hv] at h
    all_goals try rw [hv]
    all_goals try rfl
    all_goals exact absurd h (by simp)
  simp only [if_neg h1] at h ⊢
  by_cases h2 : fmtExplicitInt b = true
  · simp only [if_pos h2] at h ⊢
    unfold fromExplicitSt at h ⊢
    rcases hv : parseUintBase0Bits32 b with _ | v
    all_goals try rw [hv] at h
    all_goals try rw [hv]
    all_goals try rfl
    all_goals exact absurd h (by simp)
  simp only [if_neg h2] at h ⊢
  by_cases h3 : fmtBasicSingle b = true
  · simp only [if_pos h3] at h ⊢
    unfold fromBasicSingleSt at h ⊢
    rcases hv : fromBasicSingle b with _ | v
    all_goals try rw [hv] at h
    all_goals try rw [hv]
    all_goals try rfl
    all_goals exact absurd h (by simp)
  simp only [if_neg h3] at h ⊢
  by_cases h4 : fmtBasicTriple b = true
  · simp only [if_pos h4] at h ⊢
    unfold fromBasicTripleSt at h ⊢
    rcases hv : fromBasicTriple b with _ | v
    all_goals try rw [hv] at h
    all_goals try rw [hv]
    all_goals try rfl
    all_goals exact absurd h (by simp)
  simp only [if_neg h4] at h ⊢
  by_cases h5 : fmtSymbolicMatch b = true
  · simp only [if_pos h5] at h ⊢
    exact absurd h (by simp [fromSymbolicSt])
  simp only [if_neg h5] at h ⊢
  by_cases h6 : fmtFull b = true
  · simp only [if_pos h6] at h ⊢
    unfold fromFullSt at h ⊢
    rcases hv : fromFull b with _ | v
    all_goals try rw [hv] at h
    all_goals try rw [hv]
    all_goals try rfl
    all_goals exact absurd h (by simp)
  simp only [if_neg h6] at h ⊢
  all_goals rfl

/-- C5 witness: an unparsable input fails and leaves a prior receiver
value of 7 unchanged. -/
theorem claim_C5_witness :
    (UnmarshalTextSt "zzz".toList 7).1 = false ∧ (UnmarshalTextSt "zzz".toList 7).2 = 7 :=
  ⟨by decide, claim_C5_failure_leaves_receiver "zzz".toList 7 (by decide)⟩

/-- C8: a value produced by the symbolic decoder has no bits outside the
nine permission bits: ANDing it with the 32-bit complement of `0o777`
yields zero. -/
theorem claim_C8_symbolic_no_special (s : List Char)
    (_h : fmtSymbolicMatch s = true) :
    fromSymbolic s &&& compl32 0o777 = 0 :=
  land_compl777_of_lt (fromSymbolic_lt s)

/-- C8 witness at `a=rwx`. -/
theorem claim_C8_witness :
    fromSymbolic "a=rwx".toList &&& compl32 0o777 = 0 :=
  claim_C8_symbolic_no_special "a=rwx".toList (by decide)

/-- C9: under the precondition that the corresponding classifier matched,
the basic-single decoder (indexing bytes 0-2), the basic-triple decoder
(indexing bytes 0-8) and the full decoder (re-running the regexp match and
reading its groups) only access in-bounds positions and always produce a
value: their failure branches are unreachable. -/
theorem claim_C9_decoders_total (s : List Char) :
    (fmtBasicSingle s = true → s.length = 3 ∧ (fromBasicSingle s).isSome = true) ∧
    (fmtBasicTriple s = true → s.length = 9 ∧ (fromBasicTriple s).isSome = true) ∧
    (fmtFull s = true → (fromFull s).isSome = true) := by
  refine ⟨fun h1 => ?_, fun h2 => ?_, fun h3 => ?_⟩
  · obtain ⟨c0, c1, c2, hs⟩ := fmtBasicSingle_shape h1
    subst hs
    exact ⟨rfl, by simp [fromBasicSingle]⟩
  · obtain ⟨c0, c1, c2, c3, c4, c5, c6, c7, c8, hs⟩ := matchTriple_shape h2
    subst hs
    exact ⟨rfl, by simp [fromBasicTriple]⟩
  · have hsub : fullSubmatch s = some (s.take (s.length - 9), s.drop (s.length - 9)) := by
      unfold fullSubmatch
      rw [if_pos h3]
    obtain ⟨a0, a1, a2, a3, a4, a5, a6, a7, a8, hd⟩ := list9_shape (fmtFull_drop_len h3)
    unfold fromFull
    rw [hsub]
    simp only [hd]
    simp

/-- C9 witness: the triple and full preconditions discharged at
`rwxr-xr-x` and `-rwxr-xr-x`. -/
theorem claim_C9_witness :
    ("rwxr-xr-x".toList.length = 9 ∧ (fromBasicTriple "rwxr-xr-x".toList).isSome = true) ∧
    (fromFull "-rwxr-xr-x".toList).isSome = true :=
  ⟨(claim_C9_decoders_total "rwxr-xr-x".toList).2.1 (by decide),
   (claim_C9_decoders_total "-rwxr-xr-x".toList).2.2 (by decide)⟩

/-- C10: the outcome of `UnmarshalText` does not depend on the prior value
of the receiver: the error status is identical for any two prior values,
and on success the parsed value is identical; `FromString` is the same
parse run on a zero receiver. -/
theorem claim_C10_receiver_independence (b : List Char) (p q : Nat) :
    (UnmarshalTextSt b p).1 = (UnmarshalTextSt b q).1 ∧
    ((UnmarshalTextSt b p).1 = true →
      (UnmarshalTextSt b p).2 = (UnmarshalTextSt b q).2) := by
  unfold UnmarshalTextSt
  by_cases h1 : fmtImplicitInt b = true
  · simp only [if_pos h1]
    unfold fromImplicitSt
    rcases hv : parseUintBits32 8 b with _ | v
    all_goals try rw [hv]
    all_goals simp
  simp only [if_neg h1]
  by_cases h2 : fmtExplicitInt b = true
  · simp only [if_pos h2]
    unfold fromExplicitSt
    rcases hv : parseUintBase0Bits32 b with _ | v
    all_goals try rw [hv]
    all_goals simp
  simp only [if_neg h2]
  by_cases h3 : fmtBasicSingle b = true
  · simp only [if_pos h3]
    unfold fromBasicSingleSt
    rcases hv : fromBasicSingle b with _ | v
    all_goals try rw [hv]
    all_goals simp
  simp only [if_neg h3]
  by_cases h4 : fmtBasicTriple b = true
  · simp only [if_pos h4]
    unfold fromBasicTripleSt
    rcases hv : fromBasicTriple b with _ | v
    all_goals try rw [hv]
    all_goals simp
  simp only [if_neg h4]
  by_cases h5 : fmtSymbolicMatch b = true
  · simp only [if_pos h5]
    exact ⟨rfl, fun _ => rfl⟩
  simp only [if_neg h5]
  by_cases h6 : fmtFull b = true
  · simp only [if_pos h6]
    unfold fromFullSt
    rcases hv : fromFull b with _ | v
    all_goals try rw [hv]
    all_goals simp
  simp only [if_neg h6]
  all_goals exact ⟨by simp, by simp⟩

/-- C10 witness: parsing `644` over two different prior receiver values
yields the same value. -/
theorem claim_C10_witness :
    (UnmarshalTextSt "644".toList 5).2 = (UnmarshalTextSt "644".toList 9).2 :=
  (claim_C10_receiver_independence "644".toList 5 9).2 (by decide)


/-! ## Helper lemmas: octal digit strings and overflow -/

theorem digitsValAux_bound (s : List Char) :
    ∀ a v : Nat, digitsValAux 8 a s = some v → v < (a + 1) * 8 ^ s.length := by
  induction s with
  | nil =>
    intro a v h
    simp only [digitsValAux, Option.some_inj] at h
    subst h
    simpa using Nat.lt_succ_self a
  | cons c rest ih =>
    intro a v h
    unfold digitsValAux at h
    rcases hd : digitVal c with _ | d
    · simp only [hd] at h
      exact absurd h (by simp)
    simp only [hd] at h
    by_cases hdb : d < 8
    · rw [if_pos hdb] at h
      have hrec := ih (a * 8 + d) v h
      have hstep : a * 8 + d + 1 ≤ (a + 1) * 8 := by omega
      simp only [List.length_cons]
      calc v < (a * 8 + d + 1) * 8 ^ rest.length := hrec
        _ ≤ ((a + 1) * 8) * 8 ^ rest.length := Nat.mul_le_mul_right _ hstep
        _ = (a + 1) * 8 ^ (rest.length + 1) := by ring
    · rw [if_neg hdb] at h
      exact absurd h (by simp)

theorem beq_false_of_octDigit {c d : Char} (h : isOctDigit c = true)
    (hd : isOctDigit d = false) : (c == d) = false := by
  cases hq : c == d
  · rfl
  · have hc := eq_of_beq hq
    subst hc
    rw [h] at hd
    exact absurd hd (by simp)

theorem isOctDigit_not_marker {c : Char} (h : isOctDigit c = true) :
    (c == 'x') = false ∧ (c == 'X') = false ∧ (c == 'o') = false ∧
    (c == 'O') = false ∧ (c == 'b') = false ∧ (c == 'B') = false :=
  ⟨beq_false_of_octDigit h (by decide), beq_false_of_octDigit h (by decide),
   beq_false_of_octDigit h (by decide), beq_false_of_octDigit h (by decide),
   beq_false_of_octDigit h (by decide), beq_false_of_octDigit h (by decide)⟩

theorem isOctDigit_not_NZhead {c : Char} (h : (c == '0') = true) :
    isOctDigitNZ c = false := by
  have hc := eq_of_beq h
  subst hc
  decide

theorem fmtExplicitInt_cons_not_o {c : Char} {rest : List Char}
    (hc : (c == 'o') = false) :
    fmtExplicitInt ('0' :: c :: rest) =
      (decide (3 ≤ (c :: rest).length) && (c :: rest).all isOctDigit) := by
  unfold fmtExplicitInt
  simp only [beq_self_eq_true, Bool.true_and]
  split
  · rename_i rest2 heq
    injection heq with h1 h2
    subst h1
    simp at hc
  · rfl

theorem parseUintBase0_cons_octal {c : Char} {rest : List Char}
    (hc : isOctDigit c = true) :
    parseUintBase0Bits32 ('0' :: c :: rest) = parseUintBits32 8 (c :: rest) := by
  obtain ⟨hx, hX, ho, hO, hb, hB⟩ := isOctDigit_not_marker hc
  unfold parseUintBase0Bits32
  simp only [hx, hX, ho, hO, hb, hB, Bool.or_self, Bool.false_eq_true, if_false]

/-- C7: an octal digit string whose value exceeds the unsigned 32-bit
range fails to parse in the implicit form and in both explicit prefixed
forms, leaving the receiver unchanged. -/
theorem claim_C7_overflow_rejected (ds : List Char) (v p : Nat)
    (hd : ds.all isOctDigit = true) (hv : digitsVal 8 ds = some v)
    (hover : u32max < v) :
    (fmtImplicitInt ds = true → UnmarshalTextSt ds p = (false, p)) ∧
    UnmarshalTextSt ('0' :: ds) p = (false, p) ∧
    UnmarshalTextSt ('0' :: 'o' :: ds) p = (false, p) := by
  have hover' : 4294967295 < v := hover
  have hb := digitsValAux_bound ds 0 v hv
  have hb' : v < 8 ^ ds.length := by simpa using hb
  have hlen3 : 3 ≤ ds.length := by
    by_contra hcon
    push_neg at hcon
    have h8 : (8 : Nat) ^ ds.length ≤ 8 ^ 2 :=
      Nat.pow_le_pow_right (by norm_num) (by omega)
    have : v < 64 := lt_of_lt_of_le hb' (by norm_num at h8 ⊢; omega)
    omega
  rcases ds with _ | ⟨c, rest⟩
  · simp at hlen3
  have hdc : isOctDigit c = true ∧ rest.all isOctDigit = true := by
    simpa using hd
  have hpf : parseUintBits32 8 (c :: rest) = none := by
    unfold parseUintBits32
    simp only [List.isEmpty_cons, Bool.false_eq_true, if_false]
    rw [hv]
    simp only [if_neg (not_le.mpr hover)]
  refine ⟨fun hi => ?_, ?_, ?_⟩
  · unfold UnmarshalTextSt
    simp only [if_pos hi]
    unfold fromImplicitSt
    rw [hpf]
  · have himp : fmtImplicitInt ('0' :: c :: rest) = false := by
      show (isOctDigitNZ '0' && decide (2 ≤ (c :: rest).length) &&
        (c :: rest).all isOctDigit) = false
      rw [show isOctDigitNZ '0' = false by decide]
      simp
    have hexp : fmtExplicitInt ('0' :: c :: rest) = true := by
      rw [fmtExplicitInt_cons_not_o (isOctDigit_not_marker hdc.1).2.2.1]
      simp only [Bool.and_eq_true]
      exact ⟨decide_eq_true hlen3, hd⟩
    unfold UnmarshalTextSt
    simp only [himp, Bool.false_eq_true, if_false, if_pos hexp]
    unfold fromExplicitSt
    rw [parseUintBase0_cons_octal hdc.1, hpf]
  · have himp : fmtImplicitInt ('0' :: 'o' :: c :: rest) = false := by
      show (isOctDigitNZ '0' && decide (2 ≤ ('o' :: c :: rest).length) &&
        ('o' :: c :: rest).all isOctDigit) = false
      rw [show isOctDigitNZ '0' = false by decide]
      simp
    have hexp : fmtExplicitInt ('0' :: 'o' :: c :: rest) = true := by
      show (('0' : Char) == '0' &&
        (decide (3 ≤ (c :: rest).length) && (c :: rest).all isOctDigit)) = true
      simp only [Bool.and_eq_true]
      exact ⟨by decide, decide_eq_true hlen3, hd⟩
    unfold UnmarshalTextSt
    simp only [himp, Bool.false_eq_true, if_false, if_pos hexp]
    unfold fromExplicitSt
    have h0 : parseUintBase0Bits32 ('0' :: 'o' :: c :: rest) =
        parseUintBits32 8 (c :: rest) := by
      unfold parseUintBase0Bits32
      rfl
    rw [h0, hpf]

/-- C7 witness: the three spec examples `47777777777`, `047777777777`,
`0o47777777777` are all rejected. -/
theorem claim_C7_witness :
    UnmarshalTextSt "47777777777".toList 0 = (false, 0) ∧
    UnmarshalTextSt "047777777777".toList 0 = (false, 0) ∧
    UnmarshalTextSt "0o47777777777".toList 0 = (false, 0) := by
  have h := claim_C7_overflow_rejected "47777777777".toList 5368709119 0
    (by decide) (by decide) (by decide)
  exact ⟨h.1 (by decide), h.2.1, h.2.2⟩

set_option maxRecDepth 40000
/-- C6: every value in the octal round-trip ranges parses back to itself:
the 3-digit implicit form for values `0o100` to `0o777`, and both the
`0`-prefixed and `0o`-prefixed zero-padded forms for values `0o000` to
`0o777`. -/
theorem claim_C6_octal_roundtrip :
    ∀ v : Nat, v < 512 →
      (64 ≤ v → UnmarshalTextSt (octal3 v) 0 = (true, v)) ∧
      UnmarshalTextSt ('0' :: octal3 v) 0 = (true, v) ∧
      UnmarshalTextSt ('0' :: 'o' :: octal3 v) 0 = (true, v) := by decide

/-- C6 witness at `v = 420 = 0o644`. -/
theorem claim_C6_witness :
    UnmarshalTextSt (octal3 420) 0 = (true, 420) ∧
    UnmarshalTextSt ('0' :: octal3 420) 0 = (true, 420) :=
  ⟨(claim_C6_octal_roundtrip 420 (by decide)).1 (by decide),
   (claim_C6_octal_roundtrip 420 (by decide)).2.1⟩


/-! ## Helper lemmas: head characters forced by each classifier -/

theorem takeUpTo_head_false {p : Char → Bool} {c : Char} {r : List Char}
    (hc : p c = false) (n : Nat) : takeUpTo p n (c :: r) = ([], c :: r) := by
  cases n with
  | zero => rfl
  | succ m =>
    unfold takeUpTo
    rw [hc]
    simp

theorem bool_not_true {x : Bool} (h : ¬x = true) : x = false := by
  cases x
  · rfl
  · exact absurd rfl h

theorem fmtImplicitInt_head {b : List Char} (h : fmtImplicitInt b = true) :
    ∃ c r, b = c :: r ∧ isOctDigitNZ c = true := by
  cases b with
  | nil => exact absurd h (by simp [fmtImplicitInt])
  | cons c r =>
    refine ⟨c, r, rfl, ?_⟩
    simp only [fmtImplicitInt, Bool.and_eq_true] at h
    exact h.1.1

theorem fmtExplicitInt_head {b : List Char} (h : fmtExplicitInt b = true) :
    ∃ r, b = '0' :: r := by
  cases b with
  | nil => exact absurd h (by simp [fmtExplicitInt])
  | cons c r =>
    simp only [fmtExplicitInt, Bool.and_eq_true] at h
    have hc := eq_of_beq h.1
    subst hc
    exact ⟨r, rfl⟩

theorem parseClause_head {b : List Char} {pc : Clause × List Char}
    (h : parseClause b = some pc) :
    ∃ c r, b = c :: r ∧ (c == 'a' || isUgo c) = true := by
  cases b with
  | nil => exact absurd h (by simp [parseClause])
  | cons c r =>
    refine ⟨c, r, rfl, ?_⟩
    by_cases hc : (c == 'a') = true
    · simp [hc]
    by_cases hu : isUgo c = true
    · simp [hu]
    exfalso
    have hc' := bool_not_true hc
    have hu' := bool_not_true hu
    simp only [parseClause, hc', Bool.false_eq_true, if_false,
      takeUpTo_head_false hu' 3] at h
    simp at h

theorem symClausesAux_clause {n : Nat} {b : List Char} {cls : List Clause}
    (h : symClausesAux (n + 1) b = some cls) :
    ∃ pc, parseClause b = some pc := by
  unfold symClausesAux at h
  rcases hp : parseClause b with _ | pc
  · rw [hp] at h
    exact absurd h (by simp)
  · refine ⟨pc, ?_⟩
    first
      | exact hp
      | rfl

theorem fmtSymbolicMatch_head {b : List Char} (h : fmtSymbolicMatch b = true) :
    ∃ c r, b = c :: r ∧ (c == 'a' || isUgo c) = true := by
  unfold fmtSymbolicMatch at h
  rcases hs : symClausesAux (b.length + 1) b with _ | cls
  · rw [hs] at h
    exact absurd h (by simp)
  · obtain ⟨pc, hpc⟩ := symClausesAux_clause hs
    exact parseClause_head hpc

theorem fmtBasicSingle_cols {c0 c1 c2 : Char}
    (h : fmtBasicSingle [c0, c1, c2] = true) :
    isCol1 c0 = true ∧ isCol2 c1 = true ∧ isCol3 c2 = true := by
  simp only [fmtBasicSingle, Bool.and_eq_true] at h
  exact ⟨h.1.1, h.1.2, h.2⟩

theorem matchTriple_c0 {c0 c1 c2 c3 c4 c5 c6 c7 c8 : Char}
    (h : matchTriple [c0, c1, c2, c3, c4, c5, c6, c7, c8] = true) :
    isCol1 c0 = true := by
  simp only [matchTriple, Bool.and_eq_true] at h
  exact h.1.1.1.1.1.1.1.1

theorem fmtFull_head {b : List Char} (h : fmtFull b = true) :
    ∃ c r, b = c :: r ∧ (isAttrChar c = true ∨ c = '-' ∨ isCol1 c = true) := by
  have hlen := fmtFull_len h
  have htr := fmtFull_triple h
  unfold fmtFull at h
  rw [Bool.and_eq_true, Bool.and_eq_true] at h
  have hpre := h.2
  rw [Bool.or_eq_true] at hpre
  cases b with
  | nil => simp at hlen
  | cons c r =>
    refine ⟨c, r, rfl, ?_⟩
    rcases Nat.lt_or_ge 9 (c :: r).length with h10 | h9
    · have hm : (c :: r).length - 9 = ((c :: r).length - 10) + 1 := by omega
      rw [hm, List.take_succ_cons] at hpre
      rcases hpre with hdash | hattr
      · right; left
        have h3 := eq_of_beq hdash
        injection h3 with h4 h5
        all_goals exact h4
      · left
        simp only [List.all_cons, Bool.and_eq_true] at hattr
        exact hattr.1
    · have h9' : (c :: r).length = 9 := Nat.le_antisymm h9 hlen
      have h0 : (c :: r).length - 9 = 0 := by omega
      rw [h0, List.drop_zero] at htr
      obtain ⟨d0, d1, d2, d3, d4, d5, d6, d7, d8, hs⟩ := matchTriple_shape htr
      right; right
      have hc0 : isCol1 d0 = true := by
        rw [hs] at htr
        exact matchTriple_c0 htr
      injection hs with h1 _
      rw [h1]
      exact hc0

/-! ## Helper lemmas: character-class disjointness -/

theorem col1_not_actor {c : Char} (h1 : isCol1 c = true)
    (h2 : (c == 'a' || isUgo c) = true) : False := by
  simp only [Bool.or_eq_true] at h2
  rcases h2 with h2 | h2
  · have := eq_of_beq h2
    subst this
    exact absurd h1 (by decide)
  · simp only [isUgo, Bool.or_eq_true] at h2
    rcases h2 with (h2 | h2) | h2 <;>
      · rw [eq_of_beq h2] at h1
        exact absurd h1 (by decide)

theorem col1_not_digit {c : Char} (h : isCol1 c = true) :
    isOctDigitNZ c = false ∧ (c == '0') = false := by
  simp only [isCol1, Bool.or_eq_true] at h
  rcases h with h | h <;>
    · rw [eq_of_beq h]
      exact ⟨by decide, by decide⟩

theorem actor_not_digit {c : Char} (h : (c == 'a' || isUgo c) = true) :
    isOctDigitNZ c = false ∧ (c == '0') = false := by
  simp only [isUgo, Bool.or_eq_true] at h
  rcases h with h | ((h | h) | h) <;>
    · rw [eq_of_beq h]
      exact ⟨by decide, by decide⟩

theorem attr_not_digit {c : Char} (h : isAttrChar c = true) :
    isOctDigitNZ c = false ∧ (c == '0') = false := by
  simp only [isAttrChar, Bool.or_eq_true] at h
  rcases h with ((((((((((((h | h) | h) | h) | h) | h) | h) | h) | h) | h) | h) | h) | h) <;>
    · rw [eq_of_beq h]
      exact ⟨by decide, by decide⟩

theorem fullHead_not_digit {c : Char}
    (h : isAttrChar c = true ∨ c = '-' ∨ isCol1 c = true) :
    isOctDigitNZ c = false ∧ (c == '0') = false := by
  rcases h with h | h | h
  · exact attr_not_digit h
  · subst h
    exact ⟨by decide, by decide⟩
  · exact col1_not_digit h

theorem not_implicit_of_head {c : Char} {r : List Char}
    (hc : isOctDigitNZ c = false) : fmtImplicitInt (c :: r) = false := by
  simp [fmtImplicitInt, hc]

theorem not_explicit_of_head {c : Char} {r : List Char}
    (hc : (c == '0') = false) : fmtExplicitInt (c :: r) = false := by
  simp [fmtExplicitInt, hc]

theorem single_not_symbolic {b : List Char} (hs : fmtBasicSingle b = true) :
    fmtSymbolicMatch b = false := by
  by_cases hy : fmtSymbolicMatch b = true
  · exfalso
    obtain ⟨c, r, hb, hcau⟩ := fmtSymbolicMatch_head hy
    obtain ⟨c0, c1, c2, hb2⟩ := fmtBasicSingle_shape hs
    rw [hb2] at hs hb
    injection hb with h1 _
    subst h1
    exact col1_not_actor (fmtBasicSingle_cols hs).1 hcau
  · exact bool_not_true hy

theorem triple_not_symbolic {b : List Char} (hs : fmtBasicTriple b = true) :
    fmtSymbolicMatch b = false := by
  by_cases hy : fmtSymbolicMatch b = true
  · exfalso
    obtain ⟨c, r, hb, hcau⟩ := fmtSymbolicMatch_head hy
    obtain ⟨c0, c1, c2, c3, c4, c5, c6, c7, c8, hb2⟩ := matchTriple_shape hs
    rw [hb2] at hs hb
    injection hb with h1 _
    subst h1
    exact col1_not_actor (matchTriple_c0 hs) hcau
  · exact bool_not_true hy


/-! ## Helper lemmas: decoder totality under a classifier match -/

theorem single_len {s : List Char} (h : fmtBasicSingle s = true) : s.length = 3 := by
  obtain ⟨c0, c1, c2, hs⟩ := fmtBasicSingle_shape h
  subst hs
  rfl

theorem triple_len {s : List Char} (h : fmtBasicTriple s = true) : s.length = 9 := by
  obtain ⟨c0, c1, c2, c3, c4, c5, c6, c7, c8, hs⟩ := matchTriple_shape h
  subst hs
  rfl

theorem single_total {s : List Char} (h : fmtBasicSingle s = true) :
    (fromBasicSingle s).isSome = true := by
  obtain ⟨c0, c1, c2, hs⟩ := fmtBasicSingle_shape h
  subst hs
  simp [fromBasicSingle]

theorem triple_total {s : List Char} (h : fmtBasicTriple s = true) :
    (fromBasicTriple s).isSome = true := by
  obtain ⟨c0, c1, c2, c3, c4, c5, c6, c7, c8, hs⟩ := matchTriple_shape h
  subst hs
  simp [fromBasicTriple]

theorem full_total {s : List Char} (h : fmtFull s = true) :
    (fromFull s).isSome = true := by
  have hsub : fullSubmatch s = some (s.take (s.length - 9), s.drop (s.length - 9)) := by
    unfold fullSubmatch
    rw [if_pos h]
  obtain ⟨a0, a1, a2, a3, a4, a5, a6, a7, a8, hd⟩ := list9_shape (fmtFull_drop_len h)
  unfold fromFull
  rw [hsub]
  simp only [hd]
  simp

theorem not_single_of_len {s : List Char} (h : s.length ≠ 3) :
    fmtBasicSingle s = false := by
  by_cases hs : fmtBasicSingle s = true
  · exact absurd (single_len hs) h
  · exact bool_not_true hs

theorem not_triple_of_len {s : List Char} (h : s.length ≠ 9) :
    fmtBasicTriple s = false := by
  by_cases hs : fmtBasicTriple s = true
  · exact absurd (triple_len hs) h
  · exact bool_not_true hs

theorem not_single_of_accepts {b : List Char}
    (h : acceptsGrammar Grammar.basicSingle b = false) : fmtBasicSingle b = false := by
  by_cases hs : fmtBasicSingle b = true
  · exfalso
    simp only [acceptsGrammar, grammarResult] at h
    rw [if_pos hs, single_total hs] at h
    exact absurd h (by simp)
  · exact bool_not_true hs

theorem not_triple_of_accepts {b : List Char}
    (h : acceptsGrammar Grammar.basicTriple b = false) : fmtBasicTriple b = false := by
  by_cases hs : fmtBasicTriple b = true
  · exfalso
    simp only [acceptsGrammar, grammarResult] at h
    rw [if_pos hs, triple_total hs] at h
    exact absurd h (by simp)
  · exact bool_not_true hs

theorem not_symbolic_of_accepts {b : List Char}
    (h : acceptsGrammar Grammar.symbolic b = false) : fmtSymbolicMatch b = false := by
  by_cases hs : fmtSymbolicMatch b = true
  · exfalso
    simp only [acceptsGrammar, grammarResult] at h
    rw [if_pos hs] at h
    exact absurd h (by simp)
  · exact bool_not_true hs


/-- C3: classification is extensionally the first-match-wins dispatch over
the six grammars in the spec's stated priority order (implicit octal,
explicit octal, symbolic, basic single, basic triple, full) — the source
checks the two basic grammars before the symbolic one, but no string
matches both a basic grammar and the symbolic grammar, so the two orders
define the same parse; a string matched by no grammar fails to parse; and
a string accepted by exactly one grammar parses successfully to the bit
pattern defined by that grammar's semantics. -/
theorem claim_C3_order_and_partition (b : List Char) (p : Nat) :
    UnmarshalTextSpecOrder b p = UnmarshalTextSt b p ∧
    ((∀ g, matchesGrammar g b = false) → UnmarshalTextSt b p = (false, p)) ∧
    (∀ g v, grammarResult g b = some v →
      (∀ g2, g2 ≠ g → acceptsGrammar g2 b = false) →
      UnmarshalTextSt b p = (true, v)) := by
  refine ⟨?_, ?_, ?_⟩
  · by_cases h1 : fmtImplicitInt b = true
    · unfold UnmarshalTextSpecOrder UnmarshalTextSt
      simp only [if_pos h1]
    · have h1a := bool_not_true h1
      by_cases h2 : fmtExplicitInt b = true
      · unfold UnmarshalTextSpecOrder UnmarshalTextSt
        simp only [h1a, Bool.false_eq_true, if_false, if_pos h2]
      · have h2a := bool_not_true h2
        by_cases hsym : fmtSymbolicMatch b = true
        · have hsg : fmtBasicSingle b = false := by
            by_cases hs : fmtBasicSingle b = true
            · rw [single_not_symbolic hs] at hsym
              exact absurd hsym (by simp)
            · exact bool_not_true hs
          have htg : fmtBasicTriple b = false := by
            by_cases hs : fmtBasicTriple b = true
            · rw [triple_not_symbolic hs] at hsym
              exact absurd hsym (by simp)
            · exact bool_not_true hs
          unfold UnmarshalTextSpecOrder UnmarshalTextSt
          simp only [h1a, h2a, hsg, htg, Bool.false_eq_true, if_false, if_pos hsym]
        · have hsyma := bool_not_true hsym
          unfold UnmarshalTextSpecOrder UnmarshalTextSt
          simp only [h1a, h2a, hsyma, Bool.false_eq_true, if_false]
  · intro hnone
    have hi := hnone Grammar.implicit
    have he := hnone Grammar.explicit
    have hy := hnone Grammar.symbolic
    have hs := hnone Grammar.basicSingle
    have ht := hnone Grammar.basicTriple
    have hf := hnone Grammar.fullForm
    simp only [matchesGrammar] at hi he hy hs ht hf
    unfold UnmarshalTextSt
    simp only [hi, he, hy, hs, ht, hf, Bool.false_eq_true, if_false]
  · intro g v hv hothers
    cases g with
    | implicit =>
      simp only [grammarResult] at hv
      by_cases h1 : fmtImplicitInt b = true
      · rw [if_pos h1] at hv
        unfold UnmarshalTextSt
        simp only [if_pos h1]
        unfold fromImplicitSt
        rw [hv]
      · rw [if_neg h1] at hv
        exact absurd hv (by simp)
    | explicit =>
      simp only [grammarResult] at hv
      by_cases h2 : fmtExplicitInt b = true
      · rw [if_pos h2] at hv
        obtain ⟨r, hb⟩ := fmtExplicitInt_head h2
        subst hb
        have h1 : fmtImplicitInt ('0' :: r) = false :=
          not_implicit_of_head (by decide)
        unfold UnmarshalTextSt
        simp only [h1, Bool.false_eq_true, if_false, if_pos h2]
        unfold fromExplicitSt
        rw [hv]
      · rw [if_neg h2] at hv
        exact absurd hv (by simp)
    | symbolic =>
      simp only [grammarResult] at hv
      by_cases hy : fmtSymbolicMatch b = true
      · rw [if_pos hy] at hv
        have hs : fmtBasicSingle b = false :=
          not_single_of_accepts (hothers Grammar.basicSingle (fun hq => nomatch hq))
        have ht : fmtBasicTriple b = false :=
          not_triple_of_accepts (hothers Grammar.basicTriple (fun hq => nomatch hq))
        obtain ⟨c, r, hb, hcau⟩ := fmtSymbolicMatch_head hy
        subst hb
        have h1 : fmtImplicitInt (c :: r) = false :=
          not_implicit_of_head (actor_not_digit hcau).1
        have h2 : fmtExplicitInt (c :: r) = false :=
          not_explicit_of_head (actor_not_digit hcau).2
        unfold UnmarshalTextSt
        simp only [h1, h2, hs, ht, Bool.false_eq_true, if_false, if_pos hy]
        unfold fromSymbolicSt
        rw [Option.some_inj.mp hv]
      · rw [if_neg hy] at hv
        exact absurd hv (by simp)
    | basicSingle =>
      simp only [grammarResult] at hv
      by_cases hs : fmtBasicSingle b = true
      · rw [if_pos hs] at hv
        obtain ⟨c0, c1, c2, hb⟩ := fmtBasicSingle_shape hs
        subst hb
        have hc0 : isCol1 c0 = true := (fmtBasicSingle_cols hs).1
        have h1 : fmtImplicitInt [c0, c1, c2] = false :=
          not_implicit_of_head (col1_not_digit hc0).1
        have h2 : fmtExplicitInt [c0, c1, c2] = false :=
          not_explicit_of_head (col1_not_digit hc0).2
        unfold UnmarshalTextSt
        simp only [h1, h2, Bool.false_eq_true, if_false, if_pos hs]
        unfold fromBasicSingleSt
        rw [hv]
      · rw [if_neg hs] at hv
        exact absurd hv (by simp)
    | basicTriple =>
      simp only [grammarResult] at hv
      by_cases ht : fmtBasicTriple b = true
      · rw [if_pos ht] at hv
        have hlen := triple_len ht
        have hs : fmtBasicSingle b = false := not_single_of_len (by omega)
        obtain ⟨c0, c1, c2, c3, c4, c5, c6, c7, c8, hb⟩ := matchTriple_shape ht
        subst hb
        have hc0 : isCol1 c0 = true := matchTriple_c0 ht
        have h1 : fmtImplicitInt [c0, c1, c2, c3, c4, c5, c6, c7, c8] = false :=
          not_implicit_of_head (col1_not_digit hc0).1
        have h2 : fmtExplicitInt [c0, c1, c2, c3, c4, c5, c6, c7, c8] = false :=
          not_explicit_of_head (col1_not_digit hc0).2
        unfold UnmarshalTextSt
        simp only [h1, h2, hs, Bool.false_eq_true, if_false, if_pos ht]
        unfold fromBasicTripleSt
        rw [hv]
      · rw [if_neg ht] at hv
        exact absurd hv (by simp)
    | fullForm =>
      simp only [grammarResult] at hv
      by_cases hf : fmtFull b = true
      · rw [if_pos hf] at hv
        have hlen := fmtFull_len hf
        have hs : fmtBasicSingle b = false := not_single_of_len (by omega)
        have ht : fmtBasicTriple b = false :=
          not_triple_of_accepts (hothers Grammar.basicTriple (fun hq => nomatch hq))
        have hy : fmtSymbolicMatch b = false :=
          not_symbolic_of_accepts (hothers Grammar.symbolic (fun hq => nomatch hq))
        obtain ⟨c, r, hb, hcls⟩ := fmtFull_head hf
        subst hb
        have h1 : fmtImplicitInt (c :: r) = false :=
          not_implicit_of_head (fullHead_not_digit hcls).1
        have h2 : fmtExplicitInt (c :: r) = false :=
          not_explicit_of_head (fullHead_not_digit hcls).2
        unfold UnmarshalTextSt
        simp only [h1, h2, hs, ht, hy, Bool.false_eq_true, if_false, if_pos hf]
        unfold fromFullSt
        rw [hv]
      · rw [if_neg hf] at hv
        exact absurd hv (by simp)

/-- C3 witness: `644` is accepted only by the implicit grammar and parses
to `0o644`; a string matching no grammar fails. -/
theorem claim_C3_witness :
    UnmarshalTextSt "644".toList 0 = (true, 420) ∧
    UnmarshalTextSt "!!".toList 0 = (false, 0) :=
  ⟨(claim_C3_order_and_partition "644".toList 0).2.2 Grammar.implicit 420 (by decide)
      (fun g2 hne => by cases g2 <;> first | exact absurd rfl hne | decide),
   (claim_C3_order_and_partition "!!".toList 0).2.1 (fun g => by cases g <;> decide)⟩


/-! ## Helper lemmas: decomposition of the symbolic scanner (for C2) -/

theorem all_imp {l : List Char} {p q : Char → Bool}
    (h : ∀ c, p c = true → q c = true) (hl : l.all p = true) : l.all q = true := by
  induction l with
  | nil => rfl
  | cons c rest ih =>
    simp only [List.all_cons, Bool.and_eq_true] at hl ⊢
    exact ⟨h c hl.1, ih hl.2⟩

theorem ugo_sym {c : Char} (h : isUgo c = true) : isSymChar c = true := by
  simp [isSymChar, h]

theorem op_sym {c : Char} (h : isOpChar c = true) : isSymChar c = true := by
  simp [isSymChar, h]

theorem rwx_sym {c : Char} (h : isRwx c = true) : isSymChar c = true := by
  simp [isSymChar, h]

theorem space_sym {c : Char} (h : isSpaceChar c = true) : isSymChar c = true := by
  simp [isSymChar, h]

theorem takeUpTo_parts (p : Char → Bool) :
    ∀ (n : Nat) (s : List Char),
      (takeUpTo p n s).1 ++ (takeUpTo p n s).2 = s ∧ (takeUpTo p n s).1.all p = true := by
  intro n
  induction n with
  | zero => intro s; exact ⟨rfl, rfl⟩
  | succ m ih =>
    intro s
    cases s with
    | nil => exact ⟨rfl, rfl⟩
    | cons c rest =>
      unfold takeUpTo
      by_cases hc : p c = true
      · rw [if_pos hc]
        have h2 := ih rest
        constructor
        · simpa using h2.1
        · simpa [hc] using h2.2
      · rw [if_neg hc]
        exact ⟨rfl, rfl⟩

theorem parseClause_decomp {b : List Char} {cl : Clause} {rest : List Char}
    (h : parseClause b = some (cl, rest)) :
    ∃ pre, b = pre ++ rest ∧ pre.all isSymChar = true := by
  cases b with
  | nil => exact absurd h (by simp [parseClause])
  | cons c r =>
    by_cases hc : (c == 'a') = true
    · simp only [parseClause, hc, if_true, List.isEmpty_cons] at h
      rcases r with _ | ⟨op, r2⟩
      · exact absurd h (by simp)
      · by_cases hop : isOpChar op = true
        · simp only [hop, if_true] at h
          by_cases hemp : (takeUpTo isRwx 3 r2).1.isEmpty = true
          · rw [if_pos hemp] at h
            exact absurd h (by simp)
          · rw [if_neg hemp] at h
            have hparts := takeUpTo_parts isRwx 3 r2
            have hrest : rest = (takeUpTo isRwx 3 r2).2 := by
              have := congrArg (fun q => q.map Prod.snd) h
              simpa using this.symm
            refine ⟨c :: op :: (takeUpTo isRwx 3 r2).1, ?_, ?_⟩
            · rw [hrest]
              simp [hparts.1]
            · have hcs : isSymChar c = true := by
                rw [eq_of_beq hc]
                decide
              simp only [List.all_cons, Bool.and_eq_true]
              exact ⟨hcs, op_sym hop, all_imp (fun d hd => rwx_sym hd) hparts.2⟩
        · simp only [hop, Bool.false_eq_true, if_false] at h
          exact absurd h (by simp)
    · simp only [parseClause, hc, Bool.false_eq_true, if_false] at h
      by_cases hemp : (takeUpTo isUgo 3 (c :: r)).1.isEmpty = true
      · rw [if_pos hemp] at h
        exact absurd h (by simp)
      · rw [if_neg hemp] at h
        have haparts := takeUpTo_parts isUgo 3 (c :: r)
        rcases h2 : (takeUpTo isUgo 3 (c :: r)).2 with _ | ⟨op, r2⟩
        · rw [h2] at h
          exact absurd h (by simp)
        · rw [h2] at h
          by_cases hop : isOpChar op = true
          · simp only [hop, if_true] at h
            by_cases hemp2 : (takeUpTo isRwx 3 r2).1.isEmpty = true
            · rw [if_pos hemp2] at h
              exact absurd h (by simp)
            · rw [if_neg hemp2] at h
              have hparts := takeUpTo_parts isRwx 3 r2
              have hrest : rest = (takeUpTo isRwx 3 r2).2 := by
                have := congrArg (fun q => q.map Prod.snd) h
                simpa using this.symm
              refine ⟨(takeUpTo isUgo 3 (c :: r)).1 ++ op :: (takeUpTo isRwx 3 r2).1, ?_, ?_⟩
              · rw [hrest, List.append_assoc, List.cons_append, hparts.1, ← h2,
                  haparts.1]
              · simp only [List.all_append, List.all_cons, Bool.and_eq_true]
                exact ⟨all_imp (fun d hd => ugo_sym hd) haparts.2,
                  op_sym hop, all_imp (fun d hd => rwx_sym hd) hparts.2⟩
          · simp only [hop, Bool.false_eq_true, if_false] at h
            exact absurd h (by simp)

theorem symClausesAux_chars :
    ∀ (fuel : Nat) (s : List Char) (cls : List Clause),
      symClausesAux fuel s = some cls → s.all isSymChar = true := by
  intro fuel
  induction fuel with
  | zero =>
    intro s cls h
    exact absurd h (by simp [symClausesAux])
  | succ n ih =>
    intro s cls h
    unfold symClausesAux at h
    rcases hp : parseClause s with _ | ⟨cl, rest⟩
    · rw [hp] at h
      exact absurd h (by simp)
    rw [hp] at h
    try simp only [] at h
    obtain ⟨pre, hs, hsym⟩ := parseClause_decomp hp
    rcases rest with _ | ⟨c2, rest2⟩
    · subst hs
      simpa using hsym
    · try simp only [] at h
      by_cases hsp : isSpaceChar c2 = true
      · rw [if_pos hsp] at h
        try simp only [] at h
        rcases rest2 with _ | ⟨c3, rest3⟩
        · subst hs
          simp only [List.all_append, List.all_cons, Bool.and_eq_true]
          exact ⟨hsym, space_sym hsp, rfl⟩
        · rcases hrec : symClausesAux n (c3 :: rest3) with _ | cls2
          · rw [hrec] at h
            exact absurd h (by simp)
          · have hall := ih _ _ hrec
            subst hs
            have hall2 : isSymChar c3 = true ∧ rest3.all isSymChar = true := by
              simpa using hall
            simp only [List.all_append, List.all_cons, Bool.and_eq_true]
            exact ⟨hsym, space_sym hsp, hall2.1, hall2.2⟩
      · rw [if_neg hsp] at h
        rcases hrec : symClausesAux n (c2 :: rest2) with _ | cls2
        · rw [hrec] at h
          exact absurd h (by simp)
        · have hall := ih _ _ hrec
          subst hs
          simp only [List.all_append, Bool.and_eq_true]
          exact ⟨hsym, hall⟩

theorem not_symbolic_of_bad_char {s : List Char} {c : Char}
    (hmem : c ∈ s) (hbad : isSymChar c = false) : fmtSymbolicMatch s = false := by
  by_cases h : fmtSymbolicMatch s = true
  · exfalso
    unfold fmtSymbolicMatch at h
    rcases hq : symClausesAux (s.length + 1) s with _ | cls
    · rw [hq] at h
      exact absurd h (by simp)
    · have hall := symClausesAux_chars _ _ _ hq
      have := List.all_eq_true.mp hall c hmem
      rw [this] at hbad
      exact absurd hbad (by simp)
  · exact bool_not_true h

theorem not_symbolic_head {c : Char} {r : List Char}
    (hc : (c == 'a' || isUgo c) = false) : fmtSymbolicMatch (c :: r) = false := by
  by_cases h : fmtSymbolicMatch (c :: r) = true
  · exfalso
    obtain ⟨c2, r2, heq, hcau⟩ := fmtSymbolicMatch_head h
    injection heq with e1 e2
    rw [← e1] at hcau
    rw [hcau] at hc
    exact absurd hc (by simp)
  · exact bool_not_true h


/-! ## Helper lemmas: evaluating the canonical encoder and the full
decoder against each other (for C2) -/

theorem land_lor_distrib (v a b : Nat) :
    (v &&& a) ||| (v &&& b) = v &&& (a ||| b) := by
  refine Nat.eq_of_testBit_eq fun i => ?_
  simp only [Nat.testBit_lor, Nat.testBit_land]
  cases v.testBit i <;> simp

theorem bne_zero_false {a : Nat} (h : (a != 0) = false) : a = 0 := by
  simpa using h

theorem mem_attr_filter (v : Nat) :
    ∀ (T : List (Char × Nat)) (e : Char × Nat), e ∈ T → (v &&& e.2 != 0) = true →
      e.1 ∈ T.foldr (fun e acc => if v &&& e.2 != 0 then e.1 :: acc else acc) [] := by
  intro T
  induction T with
  | nil =>
    intro e he _
    cases he
  | cons f T ih =>
    intro e he hv
    simp only [List.foldr]
    rcases List.mem_cons.mp he with heq | hmem
    · subst heq
      rw [if_pos hv]
      exact List.mem_cons_self _ _
    · by_cases hf : (v &&& f.2 != 0) = true
      · rw [if_pos hf]
        exact List.mem_cons_of_mem _ (ih e hmem hv)
      · rw [if_neg hf]
        exact ih e hmem hv

theorem attr_filter_subset (v : Nat) :
    ∀ (T : List (Char × Nat)), (∀ e ∈ T, isAttrChar e.1 = true) →
      (T.foldr (fun e acc => if v &&& e.2 != 0 then e.1 :: acc else acc) []).all
        isAttrChar = true := by
  intro T
  induction T with
  | nil => intro _; rfl
  | cons f T ih =>
    intro hT
    simp only [List.foldr]
    by_cases hf : (v &&& f.2 != 0) = true
    · rw [if_pos hf]
      simp only [List.all_cons, Bool.and_eq_true]
      exact ⟨hT f (List.mem_cons_self f T), ih fun e he => hT e (List.mem_cons_of_mem f he)⟩
    · rw [if_neg hf]
      exact ih fun e he => hT e (List.mem_cons_of_mem f he)

theorem modeAttrChars_subset (v : Nat) : (modeAttrChars v).all isAttrChar = true := by
  unfold modeAttrChars
  refine attr_filter_subset v modeStrTable ?_
  intro e he
  fin_cases he <;> decide

theorem attr_fold_eval (v : Nat) :
    ∀ T : List (Char × Nat),
      (∀ e ∈ T, (∀ x : Nat, attrStep x e.1 = x ||| e.2) ∧ ∃ i, e.2 = 2 ^ i) →
      ∀ x : Nat,
        List.foldl attrStep x
            (T.foldr (fun e acc => if v &&& e.2 != 0 then e.1 :: acc else acc) []) =
          x ||| (v &&& T.foldr (fun e m => e.2 ||| m) 0) := by
  intro T
  induction T with
  | nil =>
    intro _ x
    simp
  | cons e T ih =>
    intro hT x
    have he := hT e (List.mem_cons_self e T)
    have hT2 := fun f hf => hT f (List.mem_cons_of_mem e hf)
    simp only [List.foldr]
    by_cases hb : (v &&& e.2 != 0) = true
    · rw [if_pos hb, List.foldl_cons, he.1 x, ih hT2 (x ||| e.2)]
      obtain ⟨i, hi⟩ := he.2
      have hv2 : v &&& e.2 = e.2 := by
        rw [hi] at hb ⊢
        have h2 := Nat.and_two_pow v i
        rcases htb : v.testBit i
        · rw [htb] at h2
          simp only [Bool.toNat_false, Nat.zero_mul] at h2
          rw [h2] at hb
          simp at hb
        · rw [htb] at h2
          simpa using h2
      rw [Nat.lor_assoc]
      congr 1
      rw [← land_lor_distrib, hv2]
    · rw [if_neg hb, ih hT2 x]
      have hv0 : v &&& e.2 = 0 := bne_zero_false (bool_not_true hb)
      congr 1
      rw [← land_lor_distrib, hv0, Nat.zero_or]

theorem attrStep_table : ∀ e ∈ modeStrTable,
    (∀ x : Nat, attrStep x e.1 = x ||| e.2) ∧ ∃ i, e.2 = 2 ^ i := by
  intro e he
  fin_cases he <;> exact ⟨fun x => rfl, ⟨_, rfl⟩⟩

theorem land511_triple (v : Nat) : modeTripleChars (v &&& 511) = modeTripleChars v := by
  unfold modeTripleChars
  rw [Nat.land_assoc v 511 0o400, Nat.land_assoc v 511 0o200, Nat.land_assoc v 511 0o100,
    Nat.land_assoc v 511 0o040, Nat.land_assoc v 511 0o020, Nat.land_assoc v 511 0o010,
    Nat.land_assoc v 511 0o004, Nat.land_assoc v 511 0o002, Nat.land_assoc v 511 0o001,
    show (511 : Nat) &&& 0o400 = 0o400 from by decide,
    show (511 : Nat) &&& 0o200 = 0o200 from by decide,
    show (511 : Nat) &&& 0o100 = 0o100 from by decide,
    show (511 : Nat) &&& 0o040 = 0o040 from by decide,
    show (511 : Nat) &&& 0o020 = 0o020 from by decide,
    show (511 : Nat) &&& 0o010 = 0o010 from by decide,
    show (511 : Nat) &&& 0o004 = 0o004 from by decide,
    show (511 : Nat) &&& 0o002 = 0o002 from by decide,
    show (511 : Nat) &&& 0o001 = 0o001 from by decide]

theorem orIf_zero (c : Bool) (k x : Nat) : orIf c k x = x ||| orIf c k 0 := by
  cases c <;> simp [orIf]

theorem orIf_or (c : Bool) (k x y : Nat) : orIf c k (x ||| y) = x ||| orIf c k y := by
  cases c <;> simp [orIf, Nat.lor_assoc]

theorem tripleOr_pull (c0 c1 c2 c3 c4 c5 c6 c7 c8 : Char) (x : Nat) :
    tripleOr c0 c1 c2 c3 c4 c5 c6 c7 c8 x =
      x ||| tripleOr c0 c1 c2 c3 c4 c5 c6 c7 c8 0 := by
  unfold tripleOr
  rw [orIf_zero (c0 == 'r') 0o400 x, orIf_or, orIf_or, orIf_or, orIf_or, orIf_or,
    orIf_or, orIf_or, orIf_or]

theorem isCol1_ite (P : Prop) [Decidable P] : isCol1 (if P then 'r' else '-') = true := by
  split <;> decide

theorem isCol2_ite (P : Prop) [Decidable P] : isCol2 (if P then 'w' else '-') = true := by
  split <;> decide

theorem isCol3_ite (P : Prop) [Decidable P] : isCol3 (if P then 'x' else '-') = true := by
  split <;> decide

theorem matchTriple_mode (v : Nat) : matchTriple (modeTripleChars v) = true := by
  simp only [modeTripleChars, matchTriple, Bool.and_eq_true]
  exact ⟨⟨⟨⟨⟨⟨⟨⟨isCol1_ite _, isCol2_ite _⟩, isCol3_ite _⟩, isCol1_ite _⟩, isCol2_ite _⟩,
    isCol3_ite _⟩, isCol1_ite _⟩, isCol2_ite _⟩, isCol3_ite _⟩

theorem modeTripleChars_len (v : Nat) : (modeTripleChars v).length = 9 := rfl

theorem tripleOr_mode : ∀ l : Nat, l < 512 →
    tripleOr (if l &&& 0o400 != 0 then 'r' else '-') (if l &&& 0o200 != 0 then 'w' else '-')
      (if l &&& 0o100 != 0 then 'x' else '-') (if l &&& 0o040 != 0 then 'r' else '-')
      (if l &&& 0o020 != 0 then 'w' else '-') (if l &&& 0o010 != 0 then 'x' else '-')
      (if l &&& 0o004 != 0 then 'r' else '-') (if l &&& 0o002 != 0 then 'w' else '-')
      (if l &&& 0o001 != 0 then 'x' else '-') 0 = l := by decide



theorem sym_reject_canonical : ∀ l : Nat, l < 512 →
    fmtSymbolicMatch ('a' :: modeTripleChars l) = false ∧
    fmtSymbolicMatch ('u' :: modeTripleChars l) = false ∧
    fmtSymbolicMatch ('g' :: modeTripleChars l) = false ∧
    fmtSymbolicMatch ('a' :: 'u' :: modeTripleChars l) = false ∧
    fmtSymbolicMatch ('a' :: 'g' :: modeTripleChars l) = false ∧
    fmtSymbolicMatch ('u' :: 'g' :: modeTripleChars l) = false ∧
    fmtSymbolicMatch ('a' :: 'u' :: 'g' :: modeTripleChars l) = false ∧
    fmtSymbolicMatch (modeTripleChars l) = false := by decide

/-- The canonical string of any value within the enumerated bit positions
parses back to exactly that value. -/
theorem modeString_parse (v : Nat) (hmask : v &&& allowedMask = v) :
    UnmarshalTextSt (modeString v) 0 = (true, v) := by
  have h511 : v &&& 511 < 512 := Nat.lt_of_le_of_lt Nat.and_le_right (by norm_num)
  have hbase : List.foldl attrStep 0 (modeAttrChars v) =
      v &&& modeStrTable.foldr (fun e m => e.2 ||| m) 0 := by
    unfold modeAttrChars
    rw [attr_fold_eval v modeStrTable attrStep_table 0, Nat.zero_or]
  have hMM : (modeStrTable.foldr (fun e m => e.2 ||| m) 0) ||| 511 = allowedMask := by
    decide
  have hvsplit : (v &&& modeStrTable.foldr (fun e m => e.2 ||| m) 0) ||| (v &&& 511) = v := by
    rw [land_lor_distrib, hMM, hmask]
  by_cases hA : (modeAttrChars v).isEmpty = true
  · have hAnil : modeAttrChars v = [] := by
      rcases hq : modeAttrChars v with _ | ⟨c, A2⟩
      · rfl
      · rw [hq] at hA
        simp at hA
    have hms : modeString v = '-' :: modeTripleChars v := by
      unfold modeString
      rw [if_pos hA]
      rfl
    have hhigh0 : v &&& modeStrTable.foldr (fun e m => e.2 ||| m) 0 = 0 := by
      rw [← hbase, hAnil]
      rfl
    have hv511 : v &&& 511 = v := by
      conv_rhs => rw [← hvsplit]
      rw [hhigh0, Nat.zero_or]
    have himp : fmtImplicitInt (modeString v) = false := by
      rw [hms]
      exact not_implicit_of_head (by decide)
    have hexp : fmtExplicitInt (modeString v) = false := by
      rw [hms]
      exact not_explicit_of_head (by decide)
    have hlen : (modeString v).length = 10 := by
      rw [hms]
      rfl
    have hsingle : fmtBasicSingle (modeString v) = false := not_single_of_len (by omega)
    have htriple : fmtBasicTriple (modeString v) = false := not_triple_of_len (by omega)
    have hsym : fmtSymbolicMatch (modeString v) = false := by
      rw [hms]
      exact not_symbolic_head (by decide)
    have hfull : fmtFull (modeString v) = true := by
      rw [hms]
      unfold fmtFull
      rw [show ('-' :: modeTripleChars v).length - 9 = 1 from rfl,
        show ('-' :: modeTripleChars v).drop 1 = modeTripleChars v from rfl,
        show ('-' :: modeTripleChars v).take 1 = ['-'] from rfl]
      simp [matchTriple_mode, modeTripleChars_len]
    have hff : fromFull (modeString v) = some v := by
      have hfull2 := hfull
      rw [hms] at hfull2
      rw [hms]
      unfold fromFull
      have hsub : fullSubmatch ('-' :: modeTripleChars v) =
          some (['-'], modeTripleChars v) := by
        unfold fullSubmatch
        rw [if_pos hfull2]
        rfl
      rw [hsub]
      rw [show modeTripleChars v = modeTripleChars (v &&& 511) from (land511_triple v).symm]
      simp only [modeTripleChars]
      simp only [List.getElem?_cons_zero, List.getElem?_cons_succ]
      rw [tripleOr_pull, show List.foldl attrStep 0 ['-'] = 0 from by decide, Nat.zero_or,
        tripleOr_mode (v &&& 511) h511, hv511]
    unfold UnmarshalTextSt
    simp only [himp, hexp, hsingle, htriple, hsym, Bool.false_eq_true, if_false, if_pos hfull]
    unfold fromFullSt
    rw [hff]
  · have hAne : modeAttrChars v ≠ [] := by
      intro hq
      rw [hq] at hA
      exact hA rfl
    obtain ⟨c, A2, hAe⟩ : ∃ c A2, modeAttrChars v = c :: A2 := by
      rcases hq : modeAttrChars v with _ | ⟨c, A2⟩
      · exact absurd hq hAne
      · exact ⟨c, A2, rfl⟩
    have hms : modeString v = modeAttrChars v ++ modeTripleChars v := by
      unfold modeString
      rw [if_neg hA]
    have hall := modeAttrChars_subset v
    have hc_attr : isAttrChar c = true := by
      have hall2 := hall
      rw [hAe] at hall2
      simp only [List.all_cons, Bool.and_eq_true] at hall2
      exact hall2.1
    have hms2 : modeString v = c :: (A2 ++ modeTripleChars v) := by
      rw [hms, hAe]
      rfl
    have himp : fmtImplicitInt (modeString v) = false := by
      rw [hms2]
      exact not_implicit_of_head (attr_not_digit hc_attr).1
    have hexp : fmtExplicitInt (modeString v) = false := by
      rw [hms2]
      exact not_explicit_of_head (attr_not_digit hc_attr).2
    have hlen : (modeString v).length = (modeAttrChars v).length + 9 := by
      rw [hms, List.length_append, modeTripleChars_len]
    have hlen1 : 1 ≤ (modeAttrChars v).length := by
      rw [hAe]
      simp
    have hsingle : fmtBasicSingle (modeString v) = false := not_single_of_len (by omega)
    have htriple : fmtBasicTriple (modeString v) = false := not_triple_of_len (by omega)
    have hl9 : (modeAttrChars v ++ modeTripleChars v).length - 9 = (modeAttrChars v).length := by
      rw [List.length_append, modeTripleChars_len]
      omega
    have hfull : fmtFull (modeString v) = true := by
      rw [hms]
      unfold fmtFull
      rw [hl9, List.drop_left, List.take_left, List.length_append, modeTripleChars_len]
      simp [matchTriple_mode, hall, Nat.le_add_left]
    have hsym : fmtSymbolicMatch (modeString v) = false := by
      by_cases hbd : (v &&& modeDir != 0) = true
      · refine not_symbolic_of_bad_char ?_ (by decide : isSymChar 'd' = false)
        rw [hms]
        exact List.mem_append_left _
          (mem_attr_filter v modeStrTable ('d', modeDir) (by simp [modeStrTable]) hbd)
      have hd0 : v &&& modeDir = 0 := by simpa using bool_not_true hbd
      by_cases hbl : (v &&& modeExclusive != 0) = true
      · refine not_symbolic_of_bad_char ?_ (by decide : isSymChar 'l' = false)
        rw [hms]
        exact List.mem_append_left _
          (mem_attr_filter v modeStrTable ('l', modeExclusive) (by simp [modeStrTable]) hbl)
      have hl0 : v &&& modeExclusive = 0 := by simpa using bool_not_true hbl
      by_cases hbT : (v &&& modeTemporary != 0) = true
      · refine not_symbolic_of_bad_char ?_ (by decide : isSymChar 'T' = false)
        rw [hms]
        exact List.mem_append_left _
          (mem_attr_filter v modeStrTable ('T', modeTemporary) (by simp [modeStrTable]) hbT)
      have hT0 : v &&& modeTemporary = 0 := by simpa using bool_not_true hbT
      by_cases hbL : (v &&& modeSymlink != 0) = true
      · refine not_symbolic_of_bad_char ?_ (by decide : isSymChar 'L' = false)
        rw [hms]
        exact List.mem_append_left _
          (mem_attr_filter v modeStrTable ('L', modeSymlink) (by simp [modeStrTable]) hbL)
      have hL0 : v &&& modeSymlink = 0 := by simpa using bool_not_true hbL
      by_cases hbD : (v &&& modeDevice != 0) = true
      · refine not_symbolic_of_bad_char ?_ (by decide : isSymChar 'D' = false)
        rw [hms]
        exact List.mem_append_left _
          (mem_attr_filter v modeStrTable ('D', modeDevice) (by simp [modeStrTable]) hbD)
      have hD0 : v &&& modeDevice = 0 := by simpa using bool_not_true hbD
      by_cases hbp : (v &&& modeNamedPipe != 0) = true
      · refine not_symbolic_of_bad_char ?_ (by decide : isSymChar 'p' = false)
        rw [hms]
        exact List.mem_append_left _
          (mem_attr_filter v modeStrTable ('p', modeNamedPipe) (by simp [modeStrTable]) hbp)
      have hp0 : v &&& modeNamedPipe = 0 := by simpa using bool_not_true hbp
      by_cases hbS : (v &&& modeSocket != 0) = true
      · refine not_symbolic_of_bad_char ?_ (by decide : isSymChar 'S' = false)
        rw [hms]
        exact List.mem_append_left _
          (mem_attr_filter v modeStrTable ('S', modeSocket) (by simp [modeStrTable]) hbS)
      have hS0 : v &&& modeSocket = 0 := by simpa using bool_not_true hbS
      by_cases hbc : (v &&& modeCharDevice != 0) = true
      · refine not_symbolic_of_bad_char ?_ (by decide : isSymChar 'c' = false)
        rw [hms]
        exact List.mem_append_left _
          (mem_attr_filter v modeStrTable ('c', modeCharDevice) (by simp [modeStrTable]) hbc)
      have hc0 : v &&& modeCharDevice = 0 := by simpa using bool_not_true hbc
      by_cases hbt : (v &&& modeSticky != 0) = true
      · refine not_symbolic_of_bad_char ?_ (by decide : isSymChar 't' = false)
        rw [hms]
        exact List.mem_append_left _
          (mem_attr_filter v modeStrTable ('t', modeSticky) (by simp [modeStrTable]) hbt)
      have ht0 : v &&& modeSticky = 0 := by simpa using bool_not_true hbt
      by_cases hbq : (v &&& modeIrregular != 0) = true
      · refine not_symbolic_of_bad_char ?_ (by decide : isSymChar '?' = false)
        rw [hms]
        exact List.mem_append_left _
          (mem_attr_filter v modeStrTable ('?', modeIrregular) (by simp [modeStrTable]) hbq)
      have hq0 : v &&& modeIrregular = 0 := by simpa using bool_not_true hbq
      by_cases ha : (v &&& modeAppend != 0) = true
      · by_cases hu : (v &&& modeSetuid != 0) = true
        · by_cases hg : (v &&& modeSetgid != 0) = true
          ·
            have ha2 : v &&& modeAppend ≠ 0 := by simpa using ha
            have hu2 : v &&& modeSetuid ≠ 0 := by simpa using hu
            have hg2 : v &&& modeSetgid ≠ 0 := by simpa using hg
            have hpre : modeAttrChars v = ['a', 'u', 'g'] := by
              simp [modeAttrChars, modeStrTable, hd0, hl0, hT0, hL0, hD0, hp0, hS0, hc0, ht0, hq0, ha2, hu2, hg2]
            rw [hms, hpre,
              show modeTripleChars v = modeTripleChars (v &&& 511) from (land511_triple v).symm]
            exact (sym_reject_canonical (v &&& 511) h511).2.2.2.2.2.2.1
          · have hgf := bool_not_true hg
            have ha2 : v &&& modeAppend ≠ 0 := by simpa using ha
            have hu2 : v &&& modeSetuid ≠ 0 := by simpa using hu
            have hg2 : v &&& modeSetgid = 0 := by simpa using hgf
            have hpre : modeAttrChars v = ['a', 'u'] := by
              simp [modeAttrChars, modeStrTable, hd0, hl0, hT0, hL0, hD0, hp0, hS0, hc0, ht0, hq0, ha2, hu2, hg2]
            rw [hms, hpre,
              show modeTripleChars v = modeTripleChars (v &&& 511) from (land511_triple v).symm]
            exact (sym_reject_canonical (v &&& 511) h511).2.2.2.1
        · have huf := bool_not_true hu
          by_cases hg : (v &&& modeSetgid != 0) = true
          ·
            have ha2 : v &&& modeAppend ≠ 0 := by simpa using ha
            have hu2 : v &&& modeSetuid = 0 := by simpa using huf
            have hg2 : v &&& modeSetgid ≠ 0 := by simpa using hg
            have hpre : modeAttrChars v = ['a', 'g'] := by
              simp [modeAttrChars, modeStrTable, hd0, hl0, hT0, hL0, hD0, hp0, hS0, hc0, ht0, hq0, ha2, hu2, hg2]
            rw [hms, hpre,
              show modeTripleChars v = modeTripleChars (v &&& 511) from (land511_triple v).symm]
            exact (sym_reject_canonical (v &&& 511) h511).2.2.2.2.1
          · have hgf := bool_not_true hg
            have ha2 : v &&& modeAppend ≠ 0 := by simpa using ha
            have hu2 : v &&& modeSetuid = 0 := by simpa using huf
            have hg2 : v &&& modeSetgid = 0 := by simpa using hgf
            have hpre : modeAttrChars v = ['a'] := by
              simp [modeAttrChars, modeStrTable, hd0, hl0, hT0, hL0, hD0, hp0, hS0, hc0, ht0, hq0, ha2, hu2, hg2]
            rw [hms, hpre,
              show modeTripleChars v = modeTripleChars (v &&& 511) from (land511_triple v).symm]
            exact (sym_reject_canonical (v &&& 511) h511).1
      · have haf := bool_not_true ha
        by_cases hu : (v &&& modeSetuid != 0) = true
        · by_cases hg : (v &&& modeSetgid != 0) = true
          ·
            have ha2 : v &&& modeAppend = 0 := by simpa using haf
            have hu2 : v &&& modeSetuid ≠ 0 := by simpa using hu
            have hg2 : v &&& modeSetgid ≠ 0 := by simpa using hg
            have hpre : modeAttrChars v = ['u', 'g'] := by
              simp [modeAttrChars, modeStrTable, hd0, hl0, hT0, hL0, hD0, hp0, hS0, hc0, ht0, hq0, ha2, hu2, hg2]
            rw [hms, hpre,
              show modeTripleChars v = modeTripleChars (v &&& 511) from (land511_triple v).symm]
            exact (sym_reject_canonical (v &&& 511) h511).2.2.2.2.2.1
          · have hgf := bool_not_true hg
            have ha2 : v &&& modeAppend = 0 := by simpa using haf
            have hu2 : v &&& modeSetuid ≠ 0 := by simpa using hu
            have hg2 : v &&& modeSetgid = 0 := by simpa using hgf
            have hpre : modeAttrChars v = ['u'] := by
              simp [modeAttrChars, modeStrTable, hd0, hl0, hT0, hL0, hD0, hp0, hS0, hc0, ht0, hq0, ha2, hu2, hg2]
            rw [hms, hpre,
              show modeTripleChars v = modeTripleChars (v &&& 511) from (land511_triple v).symm]
            exact (sym_reject_canonical (v &&& 511) h511).2.1
        · have huf := bool_not_true hu
          by_cases hg : (v &&& modeSetgid != 0) = true
          ·
            have ha2 : v &&& modeAppend = 0 := by simpa using haf
            have hu2 : v &&& modeSetuid = 0 := by simpa using huf
            have hg2 : v &&& modeSetgid ≠ 0 := by simpa using hg
            have hpre : modeAttrChars v = ['g'] := by
              simp [modeAttrChars, modeStrTable, hd0, hl0, hT0, hL0, hD0, hp0, hS0, hc0, ht0, hq0, ha2, hu2, hg2]
            rw [hms, hpre,
              show modeTripleChars v = modeTripleChars (v &&& 511) from (land511_triple v).symm]
            exact (sym_reject_canonical (v &&& 511) h511).2.2.1
          · have hgf := bool_not_true hg
            have ha2 : v &&& modeAppend = 0 := by simpa using haf
            have hu2 : v &&& modeSetuid = 0 := by simpa using huf
            have hg2 : v &&& modeSetgid = 0 := by simpa using hgf
            have hpre : modeAttrChars v = ([] : List Char) := by
              simp [modeAttrChars, modeStrTable, hd0, hl0, hT0, hL0, hD0, hp0, hS0, hc0, ht0, hq0, ha2, hu2, hg2]
            rw [hms, hpre,
              show modeTripleChars v = modeTripleChars (v &&& 511) from (land511_triple v).symm]
            exact (sym_reject_canonical (v &&& 511) h511).2.2.2.2.2.2.2
    have hff : fromFull (modeString v) = some v := by
      have hfull2 := hfull
      rw [hms] at hfull2
      rw [hms]
      unfold fromFull
      have hsub : fullSubmatch (modeAttrChars v ++ modeTripleChars v) =
          some (modeAttrChars v, modeTripleChars v) := by
        unfold fullSubmatch
        rw [if_pos hfull2, hl9, List.take_left, List.drop_left]
      rw [hsub]
      rw [show modeTripleChars v = modeTripleChars (v &&& 511) from (land511_triple v).symm]
      simp only [modeTripleChars]
      simp only [List.getElem?_cons_zero, List.getElem?_cons_succ]
      rw [tripleOr_pull, hbase, tripleOr_mode (v &&& 511) h511, hvsplit]
    unfold UnmarshalTextSt
    simp only [himp, hexp, hsingle, htriple, hsym, Bool.false_eq_true, if_false, if_pos hfull]
    unfold fromFullSt
    rw [hff]

/-- C2 (amended): the canonical full-form strings the formatter can
produce — a leading prefix that is either `-` or a nonempty in-order,
duplicate-free selection of the abbreviation characters `dalTLDpSugct?`,
followed by exactly the 9-character triple — survive unmarshal-then-
marshal byte for byte.  (The claim additionally admits an empty prefix and
arbitrary orderings or repetitions of the abbreviation characters; those
parse but re-format to the dash-prefixed, canonically ordered form, as the
counterexample shows.) -/
theorem claim_C2_amended (v : Nat) (hmask : v &&& allowedMask = v) :
    (UnmarshalTextSt (modeString v) 0).1 = true ∧
    MarshalText (UnmarshalTextSt (modeString v) 0).2 = modeString v := by
  rw [modeString_parse v hmask]
  exact ⟨rfl, rfl⟩

/-- C2 witness at `0o755`: `-rwxr-xr-x` round-trips. -/
theorem claim_C2_witness :
    (UnmarshalTextSt (modeString 493) 0).1 = true ∧
    MarshalText (UnmarshalTextSt (modeString 493) 0).2 = modeString 493 :=
  claim_C2_amended 493 (by decide)

end Posixperm
